import Mathlib

/-!
# alpinehq/bot: the IRC line decoder, tag reifier and encoder

A shallow embedding of `irc/parse.go`, `irc/tags.go`, `irc/messages.go` and
`irc/conn.go`.

Modelling conventions.

* A Go `string` is modelled as the list of its bytes, each byte written as a
  `Char` (`GoString`).  Indexing and slicing are by position in that list, as
  Go indexes strings by byte.  Every separator, literal and character class
  the program uses is ASCII, and the two negated classes of the line pattern
  (`[^ ]` and `.`) exclude one ASCII character each, so matching byte by byte
  agrees with Go matching rune by rune.
* A run-time panic (index out of range, slice bounds out of range) is an
  explicit `Except.error`; a function that cannot panic returns its value
  directly.
* Go `int` is the 64-bit signed integer of the platforms the bot is built for;
  values are `Int`s and the places where the width matters say so.
* Logging has no effect on any returned value and is left out.
-/

namespace Irc

set_option linter.dupNamespace false
set_option maxRecDepth 1000000

/-- A Go string: the sequence of its bytes. -/
abbrev GoString := List Char

/-- The run-time panics the decoder can raise. -/
inductive GoPanic where
  | indexOutOfRange
  | sliceBoundsOutOfRange
  deriving DecidableEq, Repr

deriving instance DecidableEq for Except

/-! ## The `strings` functions the program calls -/

/-- Go `strings.HasPrefix`. -/
def HasPrefix (s pre : GoString) : Bool :=
  pre.isPrefixOf s

/-- Go `strings.TrimPrefix`. -/
def TrimPrefix (s pre : GoString) : GoString :=
  if HasPrefix s pre then s.drop pre.length else s

/-- Go `strings.Split(s, sep)` for a one-byte separator: the pieces of `s`
between the occurrences of `sep`; never an empty list. -/
def Split : GoString → Char → List GoString
  | [], _ => [[]]
  | c :: cs, sep =>
    if c = sep then [] :: Split cs sep
    else
      match Split cs sep with
      | [] => [[c]]
      | h :: t => (c :: h) :: t

/-- Go `strings.SplitN(s, sep, n)` for a one-byte separator and `n ≥ 0`: at
most `n` pieces, the last one being the unsplit remainder. -/
def SplitN : GoString → Char → Nat → List GoString
  | _, _, 0 => []
  | s, _, 1 => [s]
  | [], _, _ + 2 => [[]]
  | c :: cs, sep, n + 2 =>
    if c = sep then [] :: SplitN cs sep (n + 1)
    else
      match SplitN cs sep (n + 2) with
      | [] => [[c]]
      | h :: t => (c :: h) :: t

/-- Indexing a Go slice: `xs[i]`, panicking when `i` is out of range. -/
def index {α : Type} (xs : List α) (i : Nat) : Except GoPanic α :=
  match xs.get? i with
  | some x => .ok x
  | none => .error .indexOutOfRange

/-! ## Go maps keyed by strings -/

/-- A Go `map[string]β`, as an association list with unique keys. -/
abbrev GoMap (β : Type) := List (GoString × β)

/-- The assignment `m[k] = v`. -/
def GoMap.set {β : Type} : GoMap β → GoString → β → GoMap β
  | [], k, v => [(k, v)]
  | (k1, v1) :: m, k, v =>
    if k1 = k then (k, v) :: m else (k1, v1) :: GoMap.set m k v

/-- The two-valued lookup `v, ok := m[k]`. -/
def GoMap.lookup {β : Type} : GoMap β → GoString → Option β
  | [], _ => none
  | (k1, v1) :: m, k => if k1 = k then some v1 else GoMap.lookup m k

/-- The keys of the map. -/
def GoMap.keys {β : Type} (m : GoMap β) : List GoString :=
  m.map Prod.fst

/-- The tag mapping of an event, `map[string]string`. -/
abbrev TagMap := GoMap GoString

/-- The one-valued lookup `m[k]`: the empty string when the key is absent. -/
def TagMap.at (m : TagMap) (k : GoString) : GoString :=
  (m.lookup k).getD []

/-! ## Regular expressions

Go's `regexp` returns the leftmost match and, among the matches starting
there, the one a backtracking search finds first.  `Re.run` is that
backtracking search, in continuation-passing style; every repetition of the
line pattern is over a single character class, so `star` and `plus` take a
class. -/

/-- The regular expressions the line pattern is built from. -/
inductive Re where
  /-- One literal character. -/
  | lit (c : Char)
  /-- Greedy `[class]*`. -/
  | star (cls : Char → Bool)
  /-- Greedy `[class]+`. -/
  | plus (cls : Char → Bool)
  /-- Concatenation. -/
  | seq (a b : Re)
  /-- Greedy `(?:a)?`: tries `a` first, then the empty match. -/
  | opt (a : Re)
  /-- Capturing group number `i`. -/
  | group (i : Nat) (a : Re)

/-- The first alternative if it succeeds, else the second. -/
def firstOf {α : Type} (a b : Option α) : Option α :=
  match a with
  | some r => some r
  | none => b

/-- Greedy repetition of a class from the current position: consume as many
characters as possible, giving characters back one at a time while the
continuation fails. -/
def starRun {ρ : Type} (cls : Char → Bool) :
    GoString → List GoString → (GoString → List GoString → Option ρ) → Option ρ
  | [], caps, k => k [] caps
  | c :: cs, caps, k =>
    if cls c then firstOf (starRun cls cs caps k) (k (c :: cs) caps)
    else k (c :: cs) caps

/-- Backtracking match of `re` at the start of `s`; `caps` are the submatches
recorded so far and `k` is what has to match after `re`. -/
def Re.run {ρ : Type} :
    Re → GoString → List GoString → (GoString → List GoString → Option ρ) → Option ρ
  | .lit c, s, caps, k =>
    match s with
    | x :: xs => if x = c then k xs caps else none
    | [] => none
  | .star cls, s, caps, k => starRun cls s caps k
  | .plus cls, s, caps, k =>
    match s with
    | x :: xs => if cls x then starRun cls xs caps k else none
    | [] => none
  | .seq a b, s, caps, k => a.run s caps (fun s1 caps1 => b.run s1 caps1 k)
  | .opt a, s, caps, k => firstOf (a.run s caps k) (k s caps)
  | .group i a, s, caps, k =>
    a.run s caps (fun s1 caps1 => k s1 (caps1.set i (s.take (s.length - s1.length))))

/-- Go `(*Regexp).FindStringSubmatch` for a pattern with `n` capturing groups:
the submatches of the leftmost match (index 0 is the whole match, a group that
did not take part is the empty string), or `none` for Go's nil. -/
def FindStringSubmatch (re : Re) (n : Nat) : GoString → Option (List GoString)
  | [] => (Re.group 0 re).run [] (List.replicate (n + 1) []) (fun _ caps => some caps)
  | c :: cs =>
    firstOf
      ((Re.group 0 re).run (c :: cs) (List.replicate (n + 1) []) (fun _ caps => some caps))
      (FindStringSubmatch re n cs)

/-- Concatenation of a list of expressions. -/
def Re.cat : List Re → Re
  | [] => .star (fun _ => false)
  | [a] => a
  | a :: b :: rest => .seq a (Re.cat (b :: rest))

/-- The class `[A-z0-9]`. -/
def clsAz09 (c : Char) : Bool :=
  (decide ('A' ≤ c) && decide (c ≤ 'z')) || (decide ('0' ≤ c) && decide (c ≤ '9'))

/-- The class `[A-z]`. -/
def clsAz (c : Char) : Bool :=
  decide ('A' ≤ c) && decide (c ≤ 'z')

/-- The class `[A-Z0-9]`. -/
def clsAZ09 (c : Char) : Bool :=
  (decide ('A' ≤ c) && decide (c ≤ 'Z')) || (decide ('0' ≤ c) && decide (c ≤ '9'))

/-- The class `[A-Z]`. -/
def clsAZ (c : Char) : Bool :=
  decide ('A' ≤ c) && decide (c ≤ 'Z')

/-- The class `[^ ]`. -/
def clsNotSpace (c : Char) : Bool :=
  decide (c ≠ ' ')

/-- The class `.`: any character but the newline. -/
def clsDot (c : Char) : Bool :=
  decide (c ≠ '\n')

/-- The line pattern of `parse.go`:
`:(?:(?P<nick>[A-z0-9]+)!(?P<user>[A-z0-9]+)@(?:[A-z0-9]+)\.)?(?P<server>[^ ]+) (?P<action>[A-Z0-9]+(?: \* [A-Z]+)?)(?: #?(?P<channel>[A-z]+))?(?: :(?P<message>.*))?`
with its six capturing groups numbered 1 to 6. -/
def matchRe : Re :=
  Re.cat
    [ .lit ':',
      .opt (Re.cat
        [ .group 1 (.plus clsAz09), .lit '!',
          .group 2 (.plus clsAz09), .lit '@',
          .plus clsAz09, .lit '.' ]),
      .group 3 (.plus clsNotSpace),
      .lit ' ',
      .group 4 (.seq (.plus clsAZ09)
        (.opt (Re.cat [.lit ' ', .lit '*', .lit ' ', .plus clsAZ]))),
      .opt (Re.cat [.lit ' ', .opt (.lit '#'), .group 5 (.plus clsAz)]),
      .opt (Re.cat [.lit ' ', .lit ':', .group 6 (.star clsDot)]) ]

/-! ## `strconv.Atoi` -/

/-- The two errors of `strconv`. -/
inductive NumError where
  | ErrSyntax
  | ErrRange
  deriving DecidableEq, Repr

/-- Wrap-around of 64-bit signed arithmetic. -/
def wrap64 (x : Int) : Int :=
  (x + 2 ^ 63) % 2 ^ 64 - 2 ^ 63

/-- The digit loop of Go `strconv.ParseUint(s, 10, 64)` from the accumulated
value `n`: a byte that is not a decimal digit is a syntax error with value 0;
as soon as the value leaves the 64-bit unsigned range the scan stops with the
range error and the largest value. -/
def parseUintLoop : GoString → Nat → Nat × Option NumError
  | [], n => (n, none)
  | c :: cs, n =>
    if '0' ≤ c ∧ c ≤ '9' then
      if n * 10 + (c.toNat - '0'.toNat) ≥ 2 ^ 64 then (2 ^ 64 - 1, some .ErrRange)
      else parseUintLoop cs (n * 10 + (c.toNat - '0'.toNat))
    else (0, some .ErrSyntax)

/-- Go `strconv.ParseUint(s, 10, 64)`. -/
def ParseUint (s : GoString) : Nat × Option NumError :=
  if s = [] then (0, some .ErrSyntax) else parseUintLoop s 0

/-- Go `strconv.ParseInt(s, 10, 0)`, `int` being 64 bits wide: an optional
sign, then decimal digits; out of range gives the nearest bound together with
the range error. -/
def ParseInt (s : GoString) : Int × Option NumError :=
  match s with
  | [] => (0, some .ErrSyntax)
  | c :: cs =>
    let neg := decide (c = '-')
    let r := ParseUint (if c = '+' ∨ c = '-' then cs else c :: cs)
    if r.2 = some .ErrSyntax then (0, some .ErrSyntax)
    else if !neg && decide (r.1 ≥ 2 ^ 63) then (2 ^ 63 - 1, some .ErrRange)
    else if neg && decide (r.1 > 2 ^ 63) then (-(2 ^ 63), some .ErrRange)
    else (if neg then -(r.1 : Int) else (r.1 : Int), none)

/-- Go `strconv.Atoi`: the value and the error. -/
def Atoi (s : GoString) : Int × Option NumError :=
  ParseInt s

/-- Slicing a Go string: `s[lo:hi]`, panicking unless `0 ≤ lo ≤ hi ≤ len(s)`. -/
def slice (s : GoString) (lo hi : Int) : Except GoPanic GoString :=
  if 0 ≤ lo ∧ lo ≤ hi ∧ hi ≤ (s.length : Int) then
    .ok ((s.drop lo.toNat).take (hi.toNat - lo.toNat))
  else .error .sliceBoundsOutOfRange

/-! ## `irc/tags.go`: events and tag records -/

/-- The command of an event, `type Action string`. -/
abbrev Action := GoString

def emptyAction : Action := "".toList
def ClearChat : Action := "CLEARCHAT".toList
def ClearMsg : Action := "CLEARMSG".toList
def GlobalUserState : Action := "GLOBALUSERSTATE".toList
def Join : Action := "JOIN".toList
def Part : Action := "PART".toList
def PrivMsg : Action := "PRIVMSG".toList
def RoomState : Action := "ROOMSTATE".toList
def UserNotice : Action := "USERNOTICE".toList
def UserState : Action := "USERSTATE".toList

/-- The struct `Emote`; the default value of every field is Go's zero value. -/
structure Emote where
  ID : Int := 0
  StartIdx : Int := 0
  EndIdx : Int := 0
  Text : GoString := []
  raw : GoString := []
  deriving DecidableEq, Repr

/-- The function `newEmote(e, msg)`.  `indexes[1]` panics when the part after
the colon has no `-`, and `msg[StartIdx : EndIdx+1]` panics when the bounds do
not lie in the body. -/
def newEmote (e msg : GoString) : Except GoPanic Emote :=
  let parts := Split e ':'
  if parts.length ≠ 2 then .ok {}
  else do
    let indexes := Split (← index parts 1) '-'
    let id := (Atoi (← index parts 0)).1
    let startIdx := (Atoi (← index indexes 0)).1
    let endIdx := (Atoi (← index indexes 1)).1
    let text ← slice msg startIdx (wrap64 (endIdx + 1))
    .ok { ID := id, StartIdx := startIdx, EndIdx := endIdx, Text := text, raw := e }

/-- The struct `Event`. -/
structure Event where
  Action : Action := []
  Raw : GoString := []
  Tags : TagMap := []
  Message : GoString := []
  Channel : GoString := []
  Nick : GoString := []
  User : GoString := []
  Host : GoString := []
  deriving DecidableEq, Repr

/-- A `uuid.UUID`: sixteen bytes. -/
abbrev UUID := List Nat

/-- The zero UUID. -/
def UUID.zero : UUID := List.replicate 16 0

/-- A `time.Duration`: a signed 64-bit count of nanoseconds. -/
abbrev Duration := Int

/-- The constant `time.Second`. -/
def Second : Duration := 1000000000

/-- The struct `ClearChatTags`. -/
structure ClearChatTags where
  BanDuration : Duration := 0
  deriving DecidableEq, Repr

/-- The method `(*ClearChatTags).newFromTags`: the receiver after the call and
the returned error. -/
def ClearChatTags.newFromTags (cct : ClearChatTags) (tags : TagMap) (_msg : GoString) :
    ClearChatTags × Option NumError :=
  let r := Atoi (tags.at "ban-duration".toList)
  match r.2 with
  | some err => (cct, some err)
  | none => ({ cct with BanDuration := wrap64 (r.1 * Second) }, none)

/-- The struct `ClearMsgTags`. -/
structure ClearMsgTags where
  Login : GoString := []
  Message : GoString := []
  TargetMessageID : UUID := UUID.zero
  deriving DecidableEq, Repr

/-- The method `(*ClearMsgTags).newFromTags`; `uuidParse` is the value
returned by `uuid.Parse` of the external package `github.com/google/uuid`. -/
def ClearMsgTags.newFromTags (uuidParse : GoString → UUID) (cmt : ClearMsgTags)
    (tags : TagMap) (_msg : GoString) : ClearMsgTags × Option NumError :=
  ({ cmt with
      Login := tags.at "login".toList
      Message := tags.at "message".toList
      TargetMessageID := uuidParse (tags.at "target-msg-id".toList) }, none)

/-- The loop of `parseCsvSlash` over the entries; `parts[1]` panics on an
entry without `/`. -/
def parseCsvSlashLoop : List GoString → GoMap Int → Except GoPanic (GoMap Int)
  | [], target => .ok target
  | entry :: rest, target => do
    let parts := Split entry '/'
    let v := (Atoi (← index parts 1)).1
    parseCsvSlashLoop rest (target.set (← index parts 0) v)

/-- The function `parseCsvSlash(v, target)`: the map after the call. -/
def parseCsvSlash (v : GoString) (target : GoMap Int) : Except GoPanic (GoMap Int) :=
  if v = [] then .ok target
  else parseCsvSlashLoop (Split v ',') target

/-- The struct `GlobalUserStateTags`. -/
structure GlobalUserStateTags where
  BadgeInfo : GoMap Int := []
  Badges : GoMap Int := []
  Color : GoString := []
  DisplayName : GoString := []
  EmoteSets : List Int := []
  UserID : Int := 0
  deriving DecidableEq, Repr

/-- The method `(*GlobalUserStateTags).newFromTags`. -/
def GlobalUserStateTags.newFromTags (_gust : GlobalUserStateTags) (tags : TagMap)
    (_msg : GoString) : Except GoPanic (GlobalUserStateTags × Option NumError) := do
  let badgeInfo ← parseCsvSlash (tags.at "badge-info".toList) []
  let badges ← parseCsvSlash (tags.at "badges".toList) []
  let emoteSets := (Split (tags.at "emote-sets".toList) ',').map (fun e => (Atoi e).1)
  .ok ({ BadgeInfo := badgeInfo
         Badges := badges
         Color := tags.at "color".toList
         DisplayName := tags.at "display-name".toList
         EmoteSets := emoteSets
         UserID := (Atoi (tags.at "user-id".toList)).1 }, none)

/-- The struct `UserStateTags`; the embedded pointer is nil in the zero value. -/
structure UserStateTags where
  GlobalUserStateTags : Option GlobalUserStateTags := none
  Mod : Bool := false
  deriving DecidableEq, Repr

/-- The method `(*UserStateTags).newFromTags`. -/
def UserStateTags.newFromTags (_ust : UserStateTags) (tags : TagMap) (msg : GoString) :
    Except GoPanic (UserStateTags × Option NumError) := do
  let g ← GlobalUserStateTags.newFromTags {} tags msg
  .ok ({ GlobalUserStateTags := some g.1, Mod := decide (tags.at "mod".toList = "1".toList) },
       none)

/-- The struct `PrivMsgTags`; `Timestamp` is the nanosecond count handed to
`time.Unix(0, _)`. -/
structure PrivMsgTags where
  UserStateTags : Option UserStateTags := none
  Bits : Int := 0
  Emotes : List Emote := []
  ID : UUID := UUID.zero
  RoomID : Int := 0
  Timestamp : Int := 0
  UserID : Int := 0
  deriving DecidableEq, Repr

/-- The emote loop of `(*PrivMsgTags).newFromTags`: empty groups are skipped,
every other group is appended as `newEmote` decodes it. -/
def emotesLoop (msg : GoString) : List GoString → List Emote → Except GoPanic (List Emote)
  | [], acc => .ok acc
  | e :: rest, acc =>
    if e = [] then emotesLoop msg rest acc
    else do
      let em ← newEmote e msg
      emotesLoop msg rest (acc ++ [em])

/-- The method `(*PrivMsgTags).newFromTags`. -/
def PrivMsgTags.newFromTags (uuidParse : GoString → UUID) (pmt : PrivMsgTags)
    (tags : TagMap) (msg : GoString) : Except GoPanic (PrivMsgTags × Option NumError) := do
  let u ← UserStateTags.newFromTags {} tags msg
  let bits :=
    match tags.lookup "bits".toList with
    | some b => (Atoi b).1
    | none => pmt.Bits
  let emotes ← emotesLoop msg (Split (tags.at "emotes".toList) '/') []
  let ts := (Atoi (tags.at "tmi-sent-ts".toList)).1
  .ok ({ UserStateTags := some u.1
         Bits := bits
         Emotes := emotes
         ID := uuidParse (tags.at "id".toList)
         RoomID := (Atoi (tags.at "room-id".toList)).1
         Timestamp := wrap64 (wrap64 (ts * 1000) * 1000)
         UserID := (Atoi (tags.at "user-id".toList)).1 }, none)

/-- The struct `RoomStateTags`. -/
structure RoomStateTags where
  EmoteOnly : Bool := false
  FollowersOnly : Int := 0
  R9K : Bool := false
  Slow : Int := 0
  SubsOnly : Bool := false
  deriving DecidableEq, Repr

/-- The method `(*RoomStateTags).newFromTags`. -/
def RoomStateTags.newFromTags (_rst : RoomStateTags) (tags : TagMap) (_msg : GoString) :
    RoomStateTags × Option NumError :=
  ({ EmoteOnly := decide (tags.at "emote-only".toList = "1".toList)
     FollowersOnly := (Atoi (tags.at "followers-only".toList)).1
     R9K := decide (tags.at "r9k".toList = "1".toList)
     Slow := (Atoi (tags.at "slow".toList)).1
     SubsOnly := decide (tags.at "subs-only".toList = "1".toList) }, none)

/-- The promoted field `pmt.DisplayName`, reached through the two embedded
pointers; `none` when one of them is nil. -/
def PrivMsgTags.DisplayName (pmt : PrivMsgTags) : Option GoString :=
  (pmt.UserStateTags.bind (·.GlobalUserStateTags)).map (·.DisplayName)

/-- What `ReifyTags` hands back inside its `interface{}`: a pointer to one of
the six record types. -/
inductive TagRecord where
  | clearChat (t : ClearChatTags)
  | clearMsg (t : ClearMsgTags)
  | globalUserState (t : GlobalUserStateTags)
  | privMsg (t : PrivMsgTags)
  | roomState (t : RoomStateTags)
  | userState (t : UserStateTags)
  deriving DecidableEq, Repr

/-- The command whose case of `ReifyTags` builds this record type. -/
def TagRecord.kind : TagRecord → Action
  | .clearChat _ => ClearChat
  | .clearMsg _ => ClearMsg
  | .globalUserState _ => GlobalUserState
  | .privMsg _ => PrivMsg
  | .roomState _ => RoomState
  | .userState _ => UserState

/-- The commands that have a case in the switch of `ReifyTags`. -/
def reifiedActions : List Action :=
  [ClearChat, ClearMsg, GlobalUserState, PrivMsg, RoomState, UserState]

/-- The method `Event.ReifyTags`: `none` is Go's nil.  The error returned by
`newFromTags` is dropped, as in the source (`t.newFromTags(tags, e.Message)`
is called as a statement). -/
def Event.ReifyTags (uuidParse : GoString → UUID) (e : Event) :
    Except GoPanic (Option TagRecord) :=
  let tags := e.Tags
  if tags.length = 0 then .ok none
  else if e.Action = ClearChat then
    .ok (some (.clearChat (ClearChatTags.newFromTags {} tags e.Message).1))
  else if e.Action = ClearMsg then
    .ok (some (.clearMsg (ClearMsgTags.newFromTags uuidParse {} tags e.Message).1))
  else if e.Action = GlobalUserState then do
    let r ← GlobalUserStateTags.newFromTags {} tags e.Message
    .ok (some (.globalUserState r.1))
  else if e.Action = PrivMsg then do
    let r ← PrivMsgTags.newFromTags uuidParse {} tags e.Message
    .ok (some (.privMsg r.1))
  else if e.Action = RoomState then
    .ok (some (.roomState (RoomStateTags.newFromTags {} tags e.Message).1))
  else if e.Action = UserState then do
    let r ← UserStateTags.newFromTags {} tags e.Message
    .ok (some (.userState r.1))
  else .ok none

/-! ## `irc/parse.go` -/

/-- The tag loop of `parse`: every `;`-separated item is split at `=`, the
first piece is the name and the second piece, when there is one, the value. -/
def parseTagsLoop : List GoString → TagMap → Except GoPanic TagMap
  | [], tags => .ok tags
  | kv :: rest, tags => do
    let nameVal := Split kv '='
    let name ← index nameVal 0
    let val ← if nameVal.length > 1 then index nameVal 1 else .ok []
    parseTagsLoop rest (tags.set name val)

/-- The second block of `parse` ("Parse the message"): when the rest of the
line starts with `:` and the line pattern matches, the six submatches fill the
event. -/
def parseMessage (event : Event) (line : GoString) : Except GoPanic Event :=
  if HasPrefix line ":".toList then
    match FindStringSubmatch matchRe 6 line with
    | some m =>
      if m.length > 0 then do
        pure { event with
          Nick := ← index m 1
          User := ← index m 2
          Host := ← index m 3
          Action := ← index m 4
          Channel := ← index m 5
          Message := ← index m 6 }
      else pure event
    | none => pure event
  else pure event

/-- The function `parse(line)`: the tag block, then the message block.
`parts[1]` panics when a line starting with `@` has no space. -/
def parse (line : GoString) : Except GoPanic Event :=
  let event : Event := { Tags := [], Raw := line }
  if HasPrefix line "@".toList then do
    let line1 := TrimPrefix line "@".toList
    let parts := SplitN line1 ' ' 2
    let line2 ← index parts 1
    let tags ← parseTagsLoop (Split (← index parts 0) ';') event.Tags
    parseMessage { event with Tags := tags } line2
  else parseMessage event line

/-! ## `irc/messages.go`: the outbound commands -/

structure ChannelJoin where
  Channel : GoString

/-- The method `ChannelJoin.String`: `fmt.Sprintf("JOIN #%s", cj.Channel)`. -/
def ChannelJoin.String (cj : ChannelJoin) : GoString :=
  "JOIN #".toList ++ cj.Channel

structure ChannelPart where
  Channel : GoString

/-- The method `ChannelPart.String`: `fmt.Sprintf("PART #%s", cp.Channel)`. -/
def ChannelPart.String (cp : ChannelPart) : GoString :=
  "PART #".toList ++ cp.Channel

structure PrivateMessage where
  Channel : GoString
  Message : GoString

/-- The method `PrivateMessage.String`:
`fmt.Sprintf("PRIVMSG #%s :%s", pm.Channel, pm.Message)`. -/
def PrivateMessage.String (pm : PrivateMessage) : GoString :=
  "PRIVMSG #".toList ++ pm.Channel ++ " :".toList ++ pm.Message

/-- The type `Capability`, a string. -/
abbrev Capability := GoString

def MembershipCapability : Capability := "membership".toList
def TagCapability : Capability := "tags".toList
def CommandCapability : Capability := "commands".toList

structure CapabilityRequest where
  Capability : Capability

/-- The method `CapabilityRequest.String`:
`fmt.Sprintf("CAP REQ :twitch.tv/%s", string(cr.Capability))`. -/
def CapabilityRequest.String (cr : CapabilityRequest) : GoString :=
  "CAP REQ :twitch.tv/".toList ++ cr.Capability

structure Password where
  Password : GoString

/-- The method `Password.String`: `fmt.Sprintf("PASS %s", p.Password)`. -/
def Password.String (p : Irc.Password) : GoString :=
  "PASS ".toList ++ p.Password

structure Username where
  Username : GoString

/-- The method `Username.String`: `fmt.Sprintf("NICK %s", p.Username)`. -/
def Username.String (p : Irc.Username) : GoString :=
  "NICK ".toList ++ p.Username

structure Pong where

/-- The method `Pong.String`. -/
def Pong.String (_p : Pong) : GoString :=
  "PONG :tmi.twitch.tv".toList

/-! ## `irc/conn.go`: the backoff policy

The goroutines of the connection manager talk through channels.  A buffered
channel is the list of the values sent and not yet received; what a goroutine
does between two of its channel operations is a function on the state, and the
values it receives from outside (the result of a dial, an inbound line, the
cancellation) are the inputs of its step.  Blocking and elapsed time are not
part of the state. -/

/-- The constant `time.Millisecond`. -/
def Millisecond : Int := 1000000

/-- The method `Duration.Milliseconds`: `int64(d) / 1e6`, truncated toward
zero. -/
def Milliseconds (d : Int) : Int :=
  Int.tdiv d 1000000

/-- The struct `backoff`: three `time.Duration`s, counts of nanoseconds, and
the factor.  The field `def` of the source is `def_` here, `def` being a
keyword.  The zero value of every field is 0. -/
structure backoff where
  def_ : Int := 0
  max : Int := 0
  current : Int := 0
  factor : Int := 0
  deriving DecidableEq, Repr

/-- The method `(*backoff).reset`. -/
def backoff.reset (b : backoff) : backoff :=
  { b with current := b.def_ }

/-- The method `(*backoff).wait`: after `time.Sleep(b.current)`, which changes
no state, the current delay becomes
`time.Duration(b.current.Milliseconds() * b.factor) * time.Millisecond`, both
products in 64-bit arithmetic, or `b.max` when that is larger than `b.max`. -/
def backoff.wait (b : backoff) : backoff :=
  let next := wrap64 (wrap64 (Milliseconds b.current * b.factor) * Millisecond)
  if next > b.max then { b with current := b.max } else { b with current := next }

/-- The state after `k` consecutive calls of `wait`. -/
def backoff.waits : Nat → backoff → backoff
  | 0, b => b
  | k + 1, b => (backoff.waits k b).wait

/-- The variable `backer` as `Run` constructs it:
`backoff{def: time.Second * 1, max: time.Second * 30, factor: 2}`; `current`
is not named in the literal. -/
def backer : backoff :=
  { def_ := Second * 1, max := Second * 30, factor := 2 }

/-- One call on the backoff: `wait()` or `reset()`. -/
inductive BackoffCall where
  | wait
  | reset
  deriving DecidableEq, Repr

/-- The state after a sequence of calls, the first call first. -/
def backoff.calls : backoff → List BackoffCall → backoff
  | b, [] => b
  | b, .wait :: rest => backoff.calls b.wait rest
  | b, .reset :: rest => backoff.calls b.reset rest

/-! ## `irc/conn.go`: the connection manager -/

/-- The bytes `strings.TrimSpace` treats as ASCII white space. -/
def asciiSpace (c : Char) : Bool :=
  c = '\t' || c = '\n' || c = '\x0b' || c = '\x0c' || c = '\r' || c = ' '

/-- A byte below `utf8.RuneSelf`. -/
def isASCII (c : Char) : Bool :=
  decide (c.toNat < 128)

/-- The two Unicode-aware calls `strings.TrimSpace` falls back to when it meets
a byte that is not ASCII: `strings.TrimFunc(s, unicode.IsSpace)` and
`strings.TrimRightFunc(s, unicode.IsSpace)`, of the Go library. -/
structure UnicodeTrim where
  TrimFunc : GoString → GoString
  TrimRightFunc : GoString → GoString

/-- The first loop of `strings.TrimSpace`: skip the leading ASCII white space. -/
def trimLeftASCII : GoString → GoString
  | [] => []
  | c :: cs => if asciiSpace c then trimLeftASCII cs else c :: cs

/-- Go `strings.TrimSpace`: the ASCII white space is cut at both ends; when the
first byte left at the start, or the last byte left at the end, is not ASCII,
the rest of the work is done by the Unicode-aware call. -/
def TrimSpace (u : UnicodeTrim) (s : GoString) : GoString :=
  let s1 := trimLeftASCII s
  match s1 with
  | [] => []
  | c :: _ =>
    if !isASCII c then u.TrimFunc s1
    else
      let s2 := (trimLeftASCII s1.reverse).reverse
      match s2.getLast? with
      | some d => if !isASCII d then u.TrimRightFunc s2 else s2
      | none => s2

/-- Go `strings.Contains`. -/
def Contains : GoString → GoString → Bool
  | [], sub => HasPrefix [] sub
  | c :: cs, sub => HasPrefix (c :: cs) sub || Contains cs sub

/-- The struct `event` of `conn.go`: what the read loop hands to the control
loop, a line and whether `err != nil`. -/
structure event where
  line : GoString
  err : Bool
  deriving DecidableEq, Repr

/-- The identity of a dialled connection. -/
abbrev Socket := Nat

/-- The struct `Conn`.  `events` and `writer` are the buffered channels of
capacity 100 and 10; `rw` is the socket handle, `none` for nil.  The channel
`reader` is the input of `Conn.onEvent`. -/
structure Conn where
  host : GoString := []
  username : GoString := []
  password : GoString := []
  events : List Event := []
  writer : List GoString := []
  loggedIn : Bool := false
  rw : Option Socket := none
  deriving DecidableEq, Repr

/-- The function `New`. -/
def New (host username password : GoString) : Conn :=
  { host := host, username := username, password := password }

/-- The method `(*Conn).Send` on the rendering `s.String()` of the command:
`c.writer <- s.String()`. -/
def Conn.Send (c : Conn) (s : GoString) : Conn :=
  { c with writer := c.writer ++ [s] }

/-- The non-blocking publication `select { case c.events <- e: default: }`:
the event is queued when the channel of capacity 100 has room and dropped
otherwise. -/
def Conn.publish (c : Conn) (e : Event) : Conn :=
  if c.events.length < 100 then { c with events := c.events ++ [e] } else c

/-- Where the control loop goes after an event: back to the `select`, or to
the label `RUNNER`. -/
inductive Next where
  | loop
  | runner
  deriving DecidableEq, Repr

/-- The body of `case event := <-c.reader:` in `Run`. -/
def Conn.onEvent (u : UnicodeTrim) (c : Conn) (ev : event) : Except GoPanic (Next × Conn) :=
  if ev.err then .ok (.runner, c)
  else
    let line := TrimSpace u ev.line
    let c1 : Conn :=
      if !c.loggedIn && Contains line ":Welcome, GLHF!".toList then { c with loggedIn := true }
      else c
    if HasPrefix line "PING".toList then .ok (.loop, c1.Send (Pong.String {}))
    else do
      let e ← parse line
      .ok (.loop, c1.publish e)

/-- The statements of `Run` between a successful dial and the `for` loop: the
socket handle is set and the five handshake commands are sent. -/
def Conn.connected (c : Conn) (conn : Socket) : Conn :=
  let c0 : Conn := { c with rw := some conn }
  let c1 := c0.Send (CapabilityRequest.mk MembershipCapability).String
  let c2 := c1.Send (CapabilityRequest.mk TagCapability).String
  let c3 := c2.Send (CapabilityRequest.mk CommandCapability).String
  let c4 := c3.Send (Password.mk c.password).String
  c4.Send (Username.mk c.username).String

/-- Where `Run` stands: at the dial after the label `RUNNER`, at the `select`
of the `for` loop, or returned. -/
inductive Phase where
  | dialing
  | serving
  | returned
  deriving DecidableEq, Repr

/-- The state of `Run`: the connection, the local `backer` and the place in
the function. -/
structure RunState where
  c : Conn
  backer : backoff
  phase : Phase
  deriving DecidableEq, Repr

/-- What `Run` waits for: the outcome of the dial, the cancellation of the
context, an event from the read loop. -/
inductive RunInput where
  | dialOk (conn : Socket)
  | dialErr
  | ctxDone
  | recv (ev : event)
  deriving DecidableEq, Repr

/-- The state in which `Run` reaches its first dial: `backer` as constructed and
`c.loggedIn = false`, the first statement after `RUNNER`. -/
def Conn.RunStart (c : Conn) : RunState :=
  { c := { c with loggedIn := false }, backer := backer, phase := .dialing }

/-- One step of `Run`.  A failed dial calls `backer.wait()` and goes back to
`RUNNER`; a successful one calls `backer.reset()`, sets the socket handle and
sends the handshake; in the loop, a read error goes back to `RUNNER`, whose
first statement clears `loggedIn`; the socket handle is assigned nowhere else,
and `defer conn.Close()` runs only when `Run` returns.  An input `Run` is not
waiting for leaves the state as it is. -/
def Conn.RunStep (u : UnicodeTrim) (s : RunState) : RunInput → Except GoPanic RunState
  | .dialErr =>
    match s.phase with
    | .dialing => .ok { s with backer := s.backer.wait, c := { s.c with loggedIn := false } }
    | _ => .ok s
  | .dialOk conn =>
    match s.phase with
    | .dialing =>
      .ok { s with backer := s.backer.reset, c := s.c.connected conn, phase := .serving }
    | _ => .ok s
  | .ctxDone =>
    match s.phase with
    | .serving => .ok { s with phase := .returned }
    | _ => .ok s
  | .recv ev =>
    match s.phase with
    | .serving => do
      let r ← s.c.onEvent u ev
      match r.1 with
      | .loop => .ok { s with c := r.2 }
      | .runner => .ok { s with c := { r.2 with loggedIn := false }, phase := .dialing }
    | _ => .ok s

/-- One iteration of `writerLoop` on the message it takes off `c.writer`: with
a socket handle the message and `"\r\n"` are written to that socket and
flushed, without one the message is dropped with a warning.  `wire` lists what
has been written, with the socket it was written to. -/
def Conn.writerStep (c : Conn) (wire : List (Socket × GoString)) :
    Conn × List (Socket × GoString) :=
  match c.writer with
  | [] => (c, wire)
  | msg :: rest =>
    match c.rw with
    | some sock => ({ c with writer := rest }, wire ++ [(sock, msg ++ "\r\n".toList)])
    | none => ({ c with writer := rest }, wire)

/-! ## The emote list as the specification describes it

The definitions of this section follow the words of the specification; the
theorems compare them with `newEmote` and the emote loop. -/

/-- A non-empty string of decimal digits. -/
def IsDecimal (s : GoString) : Prop :=
  s ≠ [] ∧ ∀ c ∈ s, '0' ≤ c ∧ c ≤ '9'

instance (s : GoString) : Decidable (IsDecimal s) := by
  unfold IsDecimal; infer_instance

/-- The number a string of decimal digits denotes. -/
def decimalValue (s : GoString) : Nat :=
  s.foldl (fun n c => n * 10 + (c.toNat - '0'.toNat)) 0

/-- The group `g` is the single range `id:st-en` over the body `msg`: three
strings of decimal digits with `st ≤ en < len(msg)`. -/
def IsRangeGroup (msg g id st en : GoString) : Prop :=
  IsDecimal id ∧ IsDecimal st ∧ IsDecimal en ∧
    g = id ++ ':' :: (st ++ '-' :: en) ∧
    decimalValue st ≤ decimalValue en ∧ decimalValue en < msg.length

instance (msg g id st en : GoString) : Decidable (IsRangeGroup msg g id st en) := by
  unfold IsRangeGroup; infer_instance

/-- What the entry of the emote list for the group `g` has to be: the zero
`Emote` when `g` does not have exactly two `:`-delimited parts, and the
identifier, the two indexes and the text from `st` through `en` inclusive when
`g` is the single range `id:st-en`. -/
def EmoteFor (msg g : GoString) (em : Emote) : Prop :=
  (g.count ':' ≠ 1 → em = {}) ∧
    ∀ id st en, IsRangeGroup msg g id st en →
      em.ID = decimalValue id ∧ em.StartIdx = decimalValue st ∧
        em.EndIdx = decimalValue en ∧
        em.Text = (msg.drop (decimalValue st)).take (decimalValue en + 1 - decimalValue st)

/-! ## The lines and tag prefixes the theorems speak about -/

/-- The shape of a line from a user: the source `nick!user@dom.host`, a
command, a channel after `#` and a body after ` :`. -/
def userLine (nick user dom host act chan msg : GoString) : GoString :=
  ':' :: (nick ++ '!' :: (user ++ '@' :: (dom ++ '.' :: (host ++ ' ' ::
    (act ++ ' ' :: '#' :: (chan ++ ' ' :: ':' :: msg))))))

/-- The name the tag loop reads off an item: the text before its first `=`. -/
def tagName (kv : GoString) : GoString :=
  (Split kv '=').headD []

/-- The value the tag loop reads off an item: the text between its first and
its second `=`, empty when the item has no `=`. -/
def tagValue (kv : GoString) : GoString :=
  (Split kv '=').getD 1 []

/-- One item of a tag prefix, `name=value`. -/
def tagItem (p : GoString × GoString) : GoString :=
  p.1 ++ '=' :: p.2

/-- The tag prefix `k1=v1;k2=v2;...;kn=vn`, without the leading `@`. -/
def tagPrefix : List (GoString × GoString) → GoString
  | [] => []
  | [p] => tagItem p
  | p :: q :: rest => tagItem p ++ ';' :: tagPrefix (q :: rest)

/-- A letter or a digit. -/
def isAlnum (c : Char) : Prop :=
  ('a' ≤ c ∧ c ≤ 'z') ∨ ('A' ≤ c ∧ c ≤ 'Z') ∨ ('0' ≤ c ∧ c ≤ '9')

instance (c : Char) : Decidable (isAlnum c) := by
  unfold isAlnum; infer_instance

/-- A lowercase letter or the underscore. -/
def isLowerOrUnderscore (c : Char) : Prop :=
  ('a' ≤ c ∧ c ≤ 'z') ∨ c = '_'

instance (c : Char) : Decidable (isLowerOrUnderscore c) := by
  unfold isLowerOrUnderscore; infer_instance

/-- The line of the round trip: the source built from the nickname `n`, then
the rendering of `PrivateMessage{Channel: c, Message: m}`. -/
def roundTripLine (n c m : GoString) : GoString :=
  ":".toList ++ n ++ "!".toList ++ n ++ "@".toList ++ n ++ ".tmi.twitch.tv ".toList
    ++ (PrivateMessage.mk c m).String

/-! ## Badge lists, the backoff bounds and the welcome line -/

/-- A decimal integer: decimal digits, with an optional minus sign in front. -/
def IsDecimalInt (s : GoString) : Prop :=
  IsDecimal s ∨ ∃ t, s = '-' :: t ∧ IsDecimal t

/-- The integer a decimal integer denotes. -/
def decimalIntValue : GoString → Int
  | '-' :: t => -(decimalValue t : Int)
  | s => (decimalValue s : Int)

/-- One entry of a badge list, `name/version`. -/
def badgeEntry (p : GoString × GoString) : GoString :=
  p.1 ++ '/' :: p.2

/-- The badge list `n1/v1,n2/v2,...`, the value of a `badges` or `badge-info`
tag. -/
def badgeList : List (GoString × GoString) → GoString
  | [] => []
  | [p] => badgeEntry p
  | p :: q :: rest => badgeEntry p ++ ',' :: badgeList (q :: rest)

/-- The conditions on one entry `name/version` of a badge list: no `,` and no
`/` in the name, and a version that is a decimal integer in the range of
`int`. -/
def IsBadgeEntry (p : GoString × GoString) : Prop :=
  ',' ∉ p.1 ∧ '/' ∉ p.1 ∧ IsDecimalInt p.2 ∧
    -2 ^ 63 ≤ decimalIntValue p.2 ∧ decimalIntValue p.2 < 2 ^ 63

/-- The backoff of `Run` between its bounds: the configuration of `backer` with
`def ≤ current ≤ max`. -/
def backerInBounds (b : backoff) : Prop :=
  b.def_ = backer.def_ ∧ b.max = backer.max ∧ b.factor = backer.factor ∧
    b.def_ ≤ b.current ∧ b.current ≤ b.max

/-- The welcome line of the server. -/
def welcomeLine : GoString :=
  ":tmi.twitch.tv 001 nerdwaller_bot :Welcome, GLHF!".toList

/-- The event `parse` decodes from the welcome line. -/
def welcomeEvent : Event :=
  { Action := "001".toList, Raw := welcomeLine, Tags := [],
    Message := "Welcome, GLHF!".toList, Channel := "nerdwaller_bot".toList,
    Nick := [], User := [], Host := "tmi.twitch.tv".toList }

/-- Stand-ins for the two Unicode-aware library calls in evaluations on ASCII
lines, where `TrimSpace` does not call them. -/
def asciiTrim : UnicodeTrim :=
  { TrimFunc := id, TrimRightFunc := id }

/-! ## The emote sets as the specification describes them -/

/-- A decimal digit. -/
def isDigit (c : Char) : Bool :=
  decide ('0' ≤ c ∧ c ≤ '9')

/-- The string without its sign: one leading `+` or `-` removed. -/
def stripSign : GoString → GoString
  | [] => []
  | c :: cs => if c = '+' ∨ c = '-' then cs else c :: cs

/-- A decimal integer in the widest reading: an optional sign, `+` or `-`,
followed by one or more decimal digits. -/
def IsSignedDecimal (s : GoString) : Prop :=
  IsDecimal (stripSign s)

instance (s : GoString) : Decidable (IsSignedDecimal s) := by
  unfold IsSignedDecimal; infer_instance

/-- The decimal digits a string starts with, after its sign. -/
def leadingDigits (s : GoString) : GoString :=
  (stripSign s).takeWhile isDigit

/-- What the entry of `EmoteSets` for the field `f` has to be: 0 when `f` is not
a decimal integer, unless the digits it starts with already leave the 64-bit
unsigned range, and the number itself when `f` is a decimal integer in the
range of `int`. -/
def EmoteSetFor (f : GoString) (v : Int) : Prop :=
  (¬ IsSignedDecimal f → decimalValue (leadingDigits f) < 2 ^ 64 → v = 0) ∧
    (IsDecimalInt f → -2 ^ 63 ≤ decimalIntValue f → decimalIntValue f < 2 ^ 63 →
      v = decimalIntValue f)

/-! ## The inputs of the examples -/

/-- The line of the test case `privmsg`. -/
def privmsgLine : GoString :=
  ":alpinesoftware!alpinesoftware@alpinesoftware.tmi.twitch.tv PRIVMSG #blendedsoftware :hello world".toList

/-- The line of the test case `privmsg_tags`. -/
def privmsgTagsLine : GoString :=
  "@badge-info=;badges=;color=;display-name=nerdwaller_bot;emote-sets=0;mod=0;subscriber=0;user-type= :alpinesoftware!alpinesoftware@alpinesoftware.tmi.twitch.tv PRIVMSG #blendedsoftware :hello world".toList

/-- A tagged line whose only tag value contains `=`. -/
def equalsValueLine : GoString :=
  "@reply-parent-msg-body=1+1=2 :alpinesoftware!alpinesoftware@alpinesoftware.tmi.twitch.tv PRIVMSG #blendedsoftware :yes".toList

/-! ## Interleavings of the tasks

The submitting tasks, the control loop and the write loop share the connection
through the outbound queue.  An interleaving is a list of their atomic actions;
a send never waits here, so the interleavings in which it waits for room in the
queue are among the ones covered. -/

/-- One atomic action of one of the tasks that share the connection while a
socket is established: a task submits a command through `Send`, `line` being
its rendering; the write loop runs one iteration; the control loop handles one
line that was read without error. -/
inductive TaskAction where
  | send (line : GoString)
  | write
  | control (line : GoString)
  deriving DecidableEq, Repr

/-- The effect of one action on the connection and on what has been written to
the sockets.  A write-loop iteration on an empty queue changes nothing. -/
def Conn.act (u : UnicodeTrim) (s : Conn × List (Socket × GoString)) :
    TaskAction → Except GoPanic (Conn × List (Socket × GoString))
  | .send line => .ok (s.1.Send line, s.2)
  | .write => .ok (s.1.writerStep s.2)
  | .control line => do
    let r ← s.1.onEvent u ⟨line, false⟩
    .ok (r.2, s.2)

/-- An interleaving of the tasks: the actions one after the other, in the order
the schedule lists them. -/
def Conn.schedule (u : UnicodeTrim) :
    Conn × List (Socket × GoString) → List TaskAction →
      Except GoPanic (Conn × List (Socket × GoString))
  | s, [] => .ok s
  | s, a :: rest => do
    let s1 ← Conn.act u s a
    Conn.schedule u s1 rest

/-- The lines the actions of a schedule put on the outbound queue, in order:
the line of every `Send` of a task, and the pong of the control loop for every
line that begins with `PING` after trimming. -/
def queuedBy (u : UnicodeTrim) : List TaskAction → List GoString
  | [] => []
  | .send line :: rest => line :: queuedBy u rest
  | .write :: rest => queuedBy u rest
  | .control line :: rest =>
    if HasPrefix (TrimSpace u line) "PING".toList then Pong.String {} :: queuedBy u rest
    else queuedBy u rest

/-- The lines the tasks submit through `Send` in a schedule, in order. -/
def sentBy : List TaskAction → List GoString
  | [] => []
  | .send line :: rest => line :: sentBy rest
  | _ :: rest => sentBy rest

/-- A line as the write loop writes it to the socket `sock`: followed by the
line terminator. -/
def wireLine (sock : Socket) (line : GoString) : Socket × GoString :=
  (sock, line ++ "\r\n".toList)

/-- The control loop does not panic on the line: it is a ping or `parse`
returns an event for it. -/
def decodes (u : UnicodeTrim) (line : GoString) : Prop :=
  HasPrefix (TrimSpace u line) "PING".toList = true ∨
    ∃ e, parse (TrimSpace u line) = .ok e

/-- A schedule of the three tasks: two sends, a ping and a chat line handled by
the control loop, a third send, and two iterations of the write loop in
between. -/
def sampleSchedule : List TaskAction :=
  [ .send (ChannelJoin.mk "foo".toList).String,
    .control "PING :tmi.twitch.tv\r\n".toList,
    .send (PrivateMessage.mk "foo".toList "bar".toList).String,
    .write,
    .control privmsgLine,
    .send (ChannelPart.mk "foo".toList).String,
    .write ]

/-! ## Lemmas: the dispatch of `ReifyTags` -/

theorem except_bind_ok {α β : Type} (x : Except GoPanic α) (f : α → Except GoPanic β) (b : β)
    (h : (x >>= f) = .ok b) : ∃ a, x = .ok a ∧ f a = .ok b := by
  cases x with
  | error p => cases h
  | ok a => exact ⟨a, rfl, h⟩

theorem actions_distinct :
    ClearChat ≠ ClearMsg ∧ ClearChat ≠ GlobalUserState ∧ ClearChat ≠ PrivMsg ∧
    ClearChat ≠ RoomState ∧ ClearChat ≠ UserState ∧ ClearMsg ≠ GlobalUserState ∧
    ClearMsg ≠ PrivMsg ∧ ClearMsg ≠ RoomState ∧ ClearMsg ≠ UserState ∧
    GlobalUserState ≠ PrivMsg ∧ GlobalUserState ≠ RoomState ∧ GlobalUserState ≠ UserState ∧
    PrivMsg ≠ RoomState ∧ PrivMsg ≠ UserState ∧ RoomState ≠ UserState := by
  decide

theorem ReifyTags_none (uuidParse : GoString → UUID) (e : Event)
    (h : e.Tags = [] ∨ e.Action ∉ reifiedActions) : e.ReifyTags uuidParse = .ok none := by
  rcases h with h | h
  · simp [Event.ReifyTags, h]
  · simp only [reifiedActions, List.mem_cons, List.mem_singleton, not_or, List.mem_nil_iff,
      or_false] at h
    obtain ⟨h1, h2, h3, h4, h5, h6⟩ := h
    simp [Event.ReifyTags, h1, h2, h3, h4, h5, h6]

theorem ReifyTags_some (uuidParse : GoString → UUID) (e : Event)
    (h0 : e.Tags ≠ []) (ha : e.Action ∈ reifiedActions) (r : Option TagRecord)
    (hr : e.ReifyTags uuidParse = .ok r) : ∃ t, r = some t ∧ t.kind = e.Action := by
  have hlen : e.Tags.length ≠ 0 := by simpa using h0
  obtain ⟨d1, d2, d3, d4, d5, d6, d7, d8, d9, d10, d11, d12, d13, d14, d15⟩ := actions_distinct
  simp only [reifiedActions, List.mem_cons, List.mem_singleton, List.mem_nil_iff,
    or_false] at ha
  rcases ha with h | h | h | h | h | h
  · simp only [Event.ReifyTags, hlen, h, if_true, if_false] at hr
    cases hr; exact ⟨_, rfl, by simp [TagRecord.kind, h]⟩
  · simp only [Event.ReifyTags, hlen, h, if_true, if_false, d1.symm] at hr
    cases hr; exact ⟨_, rfl, by simp [TagRecord.kind, h]⟩
  · simp only [Event.ReifyTags, hlen, h, if_true, if_false, d2.symm, d6.symm] at hr
    obtain ⟨a, _, ha⟩ := except_bind_ok _ _ _ hr
    cases ha; exact ⟨_, rfl, by simp [TagRecord.kind, h]⟩
  · simp only [Event.ReifyTags, hlen, h, if_true, if_false, d3.symm, d7.symm, d10.symm] at hr
    obtain ⟨a, _, ha⟩ := except_bind_ok _ _ _ hr
    cases ha; exact ⟨_, rfl, by simp [TagRecord.kind, h]⟩
  · simp only [Event.ReifyTags, hlen, h, if_true, if_false, d4.symm, d8.symm, d11.symm,
      d13.symm] at hr
    cases hr; exact ⟨_, rfl, by simp [TagRecord.kind, h]⟩
  · simp only [Event.ReifyTags, hlen, h, if_true, if_false, d5.symm, d9.symm, d12.symm,
      d14.symm, d15.symm] at hr
    obtain ⟨a, _, ha⟩ := except_bind_ok _ _ _ hr
    cases ha; exact ⟨_, rfl, by simp [TagRecord.kind, h]⟩

theorem ReifyTags_completes (uuidParse : GoString → UUID) (e : Event)
    (ha : e.Action ∈ [ClearChat, ClearMsg, RoomState]) :
    ∃ r, e.ReifyTags uuidParse = .ok r := by
  obtain ⟨d1, d2, d3, d4, d5, d6, d7, d8, d9, d10, d11, d12, d13, d14, d15⟩ := actions_distinct
  simp only [List.mem_cons, List.mem_singleton, List.mem_nil_iff, or_false] at ha
  by_cases h0 : e.Tags.length = 0
  · exact ⟨none, by simp [Event.ReifyTags, h0]⟩
  rcases ha with h | h | h
  · exact ⟨_, by simp only [Event.ReifyTags, h0, h, if_true, if_false]; rfl⟩
  · exact ⟨_, by simp only [Event.ReifyTags, h0, h, if_true, if_false, d1.symm]; rfl⟩
  · exact ⟨_, by simp only [Event.ReifyTags, h0, h, if_true, if_false, d4.symm, d8.symm,
      d11.symm, d13.symm]; rfl⟩

/-! ## Lemmas: splitting, `Atoi` and the emote loop -/

theorem Split_of_not_mem (sep : Char) : ∀ s : GoString, sep ∉ s → Split s sep = [s]
  | [], _ => rfl
  | c :: cs, h => by
    have hc : c ≠ sep := fun e => h (by simp [e])
    have ih := Split_of_not_mem sep cs (fun m => h (List.mem_cons_of_mem _ m))
    simp [Split, hc, ih]

theorem Split_append_sep (sep : Char) (b : GoString) :
    ∀ a : GoString, sep ∉ a → Split (a ++ sep :: b) sep = a :: Split b sep
  | [], _ => by simp [Split]
  | c :: cs, h => by
    have hc : c ≠ sep := fun e => h (by simp [e])
    have ih := Split_append_sep sep b cs (fun m => h (List.mem_cons_of_mem _ m))
    simp [Split, hc, ih]

theorem length_Split (sep : Char) : ∀ s : GoString, (Split s sep).length = s.count sep + 1
  | [] => rfl
  | c :: cs => by
    have ih := length_Split sep cs
    by_cases hc : c = sep
    · subst hc; simp [Split, ih]
    · have hc2 : (c == sep) = false := by simpa using hc
      cases h : Split cs sep with
      | nil => rw [h] at ih; simp at ih
      | cons x xs =>
        rw [h] at ih
        simp only [Split, hc, if_false, h, List.length_cons, List.count_cons, hc2] at ih ⊢
        simpa using ih

theorem le_foldl_digits : ∀ (s : GoString) (n : Nat),
    n ≤ s.foldl (fun n c => n * 10 + (c.toNat - '0'.toNat)) n
  | [], _ => Nat.le_refl _
  | c :: cs, n => by
    have := le_foldl_digits cs (n * 10 + (c.toNat - '0'.toNat))
    simp only [List.foldl_cons]
    omega

theorem parseUintLoop_digits : ∀ (s : GoString) (n : Nat),
    (∀ c ∈ s, '0' ≤ c ∧ c ≤ '9') →
    s.foldl (fun n c => n * 10 + (c.toNat - '0'.toNat)) n < 2 ^ 64 →
    parseUintLoop s n = (s.foldl (fun n c => n * 10 + (c.toNat - '0'.toNat)) n, none)
  | [], _, _, _ => rfl
  | c :: cs, n, hd, hlt => by
    have hc := hd c (by simp)
    have hge := le_foldl_digits cs (n * 10 + (c.toNat - '0'.toNat))
    simp only [List.foldl_cons] at hlt ⊢
    have hsmall : ¬ (n * 10 + (c.toNat - '0'.toNat) ≥ 2 ^ 64) := by omega
    simp only [parseUintLoop, hc, and_self, if_true, hsmall, if_false]
    exact parseUintLoop_digits cs _ (fun x hx => hd x (List.mem_cons_of_mem _ hx)) hlt

theorem digit_ne_sign (c : Char) (h : '0' ≤ c ∧ c ≤ '9') : c ≠ '+' ∧ c ≠ '-' := by
  constructor <;> rintro rfl <;> revert h <;> decide

theorem Atoi_decimal (s : GoString) (hs : IsDecimal s) (hv : decimalValue s < 2 ^ 63) :
    Atoi s = ((decimalValue s : Int), none) := by
  obtain ⟨hne, hd⟩ := hs
  cases s with
  | nil => exact absurd rfl hne
  | cons c cs =>
    obtain ⟨h1, h2⟩ := digit_ne_sign c (hd c (by simp))
    have hu : ParseUint (c :: cs) = (decimalValue (c :: cs), none) := by
      simp only [ParseUint, if_false, reduceCtorEq]
      exact parseUintLoop_digits _ _ hd (by unfold decimalValue at hv; omega)
    have hv2 : ¬ (decimalValue (c :: cs) ≥ 2 ^ 63) := by omega
    simp [Atoi, ParseInt, h1, h2, hu]
    omega

theorem slice_ok (s : GoString) (lo hi : Nat) (h1 : lo ≤ hi) (h2 : hi ≤ s.length) :
    slice s (lo : Int) (hi : Int) = .ok ((s.drop lo).take (hi - lo)) := by
  have : (0 : Int) ≤ lo ∧ (lo : Int) ≤ hi ∧ (hi : Int) ≤ (s.length : Int) := by omega
  simp only [slice, this, and_self, if_true, Int.toNat_ofNat]

theorem wrap64_small (x : Int) (h0 : 0 ≤ x) (h1 : x < 2 ^ 63) : wrap64 x = x := by
  unfold wrap64
  omega

theorem decimal_not_mem (s : GoString) (hs : IsDecimal s) : ':' ∉ s ∧ '-' ∉ s := by
  constructor <;> intro h <;> have := hs.2 _ h <;> revert this <;> decide

theorem Split_range_group (id st en : GoString) (hid : IsDecimal id) (hst : IsDecimal st)
    (hen : IsDecimal en) :
    Split (id ++ ':' :: (st ++ '-' :: en)) ':' = [id, st ++ '-' :: en] ∧
      Split (st ++ '-' :: en) '-' = [st, en] := by
  have h1 := decimal_not_mem id hid
  have h2 := decimal_not_mem st hst
  have h3 := decimal_not_mem en hen
  constructor
  · rw [Split_append_sep _ _ _ h1.1, Split_of_not_mem]
    simp [h2.1, h3.1]
  · rw [Split_append_sep _ _ _ h2.2, Split_of_not_mem _ _ h3.2]

theorem newEmote_range (msg g id st en : GoString) (hlen : msg.length < 2 ^ 63)
    (h : IsRangeGroup msg g id st en) (hid : decimalValue id < 2 ^ 63) :
    newEmote g msg = .ok
      { ID := decimalValue id, StartIdx := decimalValue st, EndIdx := decimalValue en,
        Text := (msg.drop (decimalValue st)).take (decimalValue en + 1 - decimalValue st),
        raw := g } := by
  obtain ⟨h1, h2, h3, rfl, h5, h6⟩ := h
  obtain ⟨s1, s2⟩ := Split_range_group id st en h1 h2 h3
  have a1 := Atoi_decimal id h1 hid
  have a2 := Atoi_decimal st h2 (by omega)
  have a3 := Atoi_decimal en h3 (by omega)
  have hw : wrap64 ((decimalValue en : Int) + 1) = (decimalValue en : Int) + 1 := by
    rw [wrap64_small] <;> omega
  have hs := slice_ok msg (decimalValue st) (decimalValue en + 1) (by omega) (by omega)
  rw [Nat.cast_add, Nat.cast_one] at hs
  simp only [newEmote, s1, List.length_cons, List.length_nil]
  simp [index, s2, a1, a2, a3, hw, hs, bind, Except.bind]

theorem newEmote_odd (msg g : GoString) (h : g.count ':' ≠ 1) : newEmote g msg = .ok {} := by
  have : (Split g ':').length ≠ 2 := by rw [length_Split]; omega
  simp [newEmote, this]

theorem range_group_unique (msg g id st en id1 st1 en1 : GoString)
    (h : IsRangeGroup msg g id st en) (h1 : IsRangeGroup msg g id1 st1 en1) :
    id1 = id ∧ st1 = st ∧ en1 = en := by
  obtain ⟨a1, a2, a3, rfl, -, -⟩ := h
  obtain ⟨b1, b2, b3, e, -, -⟩ := h1
  obtain ⟨s1, s2⟩ := Split_range_group id st en a1 a2 a3
  obtain ⟨t1, t2⟩ := Split_range_group id1 st1 en1 b1 b2 b3
  rw [e, t1] at s1
  simp only [List.cons.injEq, and_true] at s1
  obtain ⟨e1, e2⟩ := s1
  rw [← e2, t2] at s2
  simp only [List.cons.injEq, and_true] at s2
  exact ⟨e1, s2.1, s2.2⟩

theorem range_group_count (msg g id st en : GoString) (h : IsRangeGroup msg g id st en) :
    g.count ':' = 1 := by
  obtain ⟨a1, a2, a3, rfl, -, -⟩ := h
  have := length_Split ':' (id ++ ':' :: (st ++ '-' :: en))
  rw [(Split_range_group id st en a1 a2 a3).1] at this
  simpa using this.symm

theorem newEmote_group (msg g : GoString) (hlen : msg.length < 2 ^ 63)
    (h : (∃ id st en, IsRangeGroup msg g id st en ∧ decimalValue id < 2 ^ 63) ∨
      g.count ':' ≠ 1) :
    ∃ em, newEmote g msg = .ok em ∧ EmoteFor msg g em := by
  rcases h with ⟨id, st, en, hg, hid⟩ | h
  · refine ⟨_, newEmote_range msg g id st en hlen hg hid, ?_, ?_⟩
    · intro hc; exact absurd (range_group_count msg g id st en hg) hc
    · intro id1 st1 en1 h1
      obtain ⟨rfl, rfl, rfl⟩ := range_group_unique msg g id st en id1 st1 en1 hg h1
      exact ⟨rfl, rfl, rfl, rfl⟩
  · refine ⟨_, newEmote_odd msg g h, fun _ => rfl, ?_⟩
    intro id st en hg
    exact absurd (range_group_count msg g id st en hg) h

theorem emotesLoop_groups (msg : GoString) (P : GoString → Emote → Prop) :
    ∀ (gs : List GoString) (acc : List Emote),
      (∀ g ∈ gs, g ≠ [] → ∃ em, newEmote g msg = .ok em ∧ P g em) →
      ∃ ems, emotesLoop msg gs acc = .ok (acc ++ ems) ∧
        List.Forall₂ P (gs.filter (fun g => decide (g ≠ []))) ems
  | [], acc, _ => ⟨[], by simp [emotesLoop], by simp⟩
  | g :: gs, acc, h => by
    have hrest : ∀ g1 ∈ gs, g1 ≠ [] → ∃ em, newEmote g1 msg = .ok em ∧ P g1 em :=
      fun g1 hg1 => h g1 (List.mem_cons_of_mem _ hg1)
    by_cases hg : g = []
    · obtain ⟨ems, h1, h2⟩ := emotesLoop_groups msg P gs acc hrest
      exact ⟨ems, by simp [emotesLoop, hg, h1], by simpa [hg] using h2⟩
    · obtain ⟨em, he, hp⟩ := h g (by simp) hg
      obtain ⟨ems, h1, h2⟩ := emotesLoop_groups msg P gs (acc ++ [em]) hrest
      refine ⟨em :: ems, ?_, ?_⟩
      · simp [emotesLoop, hg, he, h1, bind, Except.bind]
      · simpa [hg] using And.intro hp h2

theorem PrivMsgTags_emotes (uuidParse : GoString → UUID) (pmt : PrivMsgTags) (tags : TagMap)
    (msg : GoString) (r : PrivMsgTags × Option NumError)
    (h : PrivMsgTags.newFromTags uuidParse pmt tags msg = .ok r) :
    emotesLoop msg (Split (tags.at "emotes".toList) '/') [] = .ok r.1.Emotes := by
  unfold PrivMsgTags.newFromTags at h
  obtain ⟨u, -, h⟩ := except_bind_ok _ _ _ h
  obtain ⟨ems, he, h⟩ := except_bind_ok _ _ _ h
  cases h
  exact he

/-! ## Lemmas: the backtracking matcher on the line pattern -/

theorem firstOf_some {α : Type} (a b : Option α) (r : α) (h : firstOf a b = some r) :
    a = some r ∨ b = some r := by
  cases a with
  | none => exact Or.inr h
  | some x => exact Or.inl h

theorem starRun_caps {ρ : Type} (cls : Char → Bool) :
    ∀ (s : GoString) (caps : List GoString) (k : GoString → List GoString → Option ρ) (r : ρ),
      starRun cls s caps k = some r → ∃ s1, k s1 caps = some r
  | [], caps, k, r, h => ⟨[], h⟩
  | c :: cs, caps, k, r, h => by
    unfold starRun at h
    split at h
    · rcases firstOf_some _ _ _ h with h1 | h1
      · exact starRun_caps cls cs caps k r h1
      · exact ⟨_, h1⟩
    · exact ⟨_, h⟩

theorem run_caps_length {ρ : Type} :
    ∀ (re : Re) (s : GoString) (caps : List GoString)
      (k : GoString → List GoString → Option ρ) (r : ρ),
      re.run s caps k = some r →
      ∃ s1 caps1, caps1.length = caps.length ∧ k s1 caps1 = some r
  | .lit c, s, caps, k, r, h => by
    cases s with
    | nil => simp [Re.run] at h
    | cons x xs =>
      simp only [Re.run] at h
      split at h
      · exact ⟨_, _, rfl, h⟩
      · cases h
  | .star cls, s, caps, k, r, h => by
    obtain ⟨s1, h1⟩ := starRun_caps cls s caps k r h
    exact ⟨s1, caps, rfl, h1⟩
  | .plus cls, s, caps, k, r, h => by
    cases s with
    | nil => simp [Re.run] at h
    | cons x xs =>
      simp only [Re.run] at h
      split at h
      · obtain ⟨s1, h1⟩ := starRun_caps cls xs caps k r h
        exact ⟨s1, caps, rfl, h1⟩
      · cases h
  | .seq a b, s, caps, k, r, h => by
    simp only [Re.run] at h
    obtain ⟨s1, caps1, hl1, h1⟩ := run_caps_length a s caps _ r h
    obtain ⟨s2, caps2, hl2, h2⟩ := run_caps_length b s1 caps1 k r h1
    exact ⟨s2, caps2, hl2.trans hl1, h2⟩
  | .opt a, s, caps, k, r, h => by
    simp only [Re.run] at h
    rcases firstOf_some _ _ _ h with h1 | h1
    · exact run_caps_length a s caps k r h1
    · exact ⟨s, caps, rfl, h1⟩
  | .group i a, s, caps, k, r, h => by
    simp only [Re.run] at h
    obtain ⟨s1, caps1, hl1, h1⟩ := run_caps_length a s caps _ r h
    exact ⟨s1, _, by simpa using hl1, h1⟩

theorem FindStringSubmatch_length (re : Re) (n : Nat) :
    ∀ (s : GoString) (m : List GoString), FindStringSubmatch re n s = some m →
      m.length = n + 1
  | [], m, h => by
    simp only [FindStringSubmatch] at h
    obtain ⟨s1, caps1, hl, h1⟩ := run_caps_length _ _ _ _ _ h
    cases h1
    simpa using hl
  | c :: cs, m, h => by
    simp only [FindStringSubmatch] at h
    rcases firstOf_some _ _ _ h with h1 | h1
    · obtain ⟨s1, caps1, hl, h2⟩ := run_caps_length _ _ _ _ _ h1
      cases h2
      simpa using hl
    · exact FindStringSubmatch_length re n cs m h1

theorem firstOf_left {α : Type} (a b : Option α) (r : α) (h : a = some r) :
    firstOf a b = some r := by
  rw [h]; rfl

theorem firstOf_none {α : Type} (b : Option α) : firstOf none b = b := rfl

theorem starRun_greedy {ρ : Type} (cls : Char → Bool) (rest : GoString)
    (caps : List GoString) (k : GoString → List GoString → Option ρ) (r : ρ)
    (hstop : ∀ y ys, rest = y :: ys → cls y = false) (hk : k rest caps = some r) :
    ∀ xs : GoString, (∀ x ∈ xs, cls x = true) → starRun cls (xs ++ rest) caps k = some r
  | [], _ => by
    cases rest with
    | nil => exact hk
    | cons y ys => simpa [starRun, hstop y ys rfl] using hk
  | x :: xs, h => by
    have ih := starRun_greedy cls rest caps k r hstop hk xs
      (fun y hy => h y (List.mem_cons_of_mem _ hy))
    show starRun cls (x :: (xs ++ rest)) caps k = some r
    simp only [starRun, h x (List.mem_cons_self _ _), if_true]
    exact firstOf_left _ _ _ ih

theorem run_plus_greedy {ρ : Type} (cls : Char → Bool) (xs rest : GoString)
    (caps : List GoString) (k : GoString → List GoString → Option ρ) (r : ρ)
    (hne : xs ≠ []) (hxs : ∀ x ∈ xs, cls x = true)
    (hstop : ∀ y ys, rest = y :: ys → cls y = false) (hk : k rest caps = some r) :
    (Re.plus cls).run (xs ++ rest) caps k = some r := by
  cases xs with
  | nil => exact absurd rfl hne
  | cons x xs =>
    simp only [List.cons_append, Re.run, hxs x (List.mem_cons_self _ _), if_true]
    exact starRun_greedy cls rest caps k r hstop hk xs
      (fun y hy => hxs y (List.mem_cons_of_mem _ hy))

theorem run_star_greedy {ρ : Type} (cls : Char → Bool) (xs : GoString)
    (caps : List GoString) (k : GoString → List GoString → Option ρ) (r : ρ)
    (hxs : ∀ x ∈ xs, cls x = true) (hk : k [] caps = some r) :
    (Re.star cls).run xs caps k = some r := by
  have := starRun_greedy cls [] caps k r (fun _ _ h => by cases h) hk xs hxs
  simpa [Re.run] using this

theorem run_seq {ρ : Type} (a b : Re) (s : GoString) (caps : List GoString)
    (k : GoString → List GoString → Option ρ) :
    (Re.seq a b).run s caps k = a.run s caps (fun s1 caps1 => b.run s1 caps1 k) := rfl

theorem run_opt {ρ : Type} (a : Re) (s : GoString) (caps : List GoString)
    (k : GoString → List GoString → Option ρ) :
    (Re.opt a).run s caps k = firstOf (a.run s caps k) (k s caps) := rfl

theorem run_group {ρ : Type} (i : Nat) (a : Re) (s : GoString) (caps : List GoString)
    (k : GoString → List GoString → Option ρ) :
    (Re.group i a).run s caps k =
      a.run s caps (fun s1 caps1 => k s1 (caps1.set i (s.take (s.length - s1.length)))) := rfl

theorem run_lit {ρ : Type} (c x : Char) (s : GoString) (caps : List GoString)
    (k : GoString → List GoString → Option ρ) :
    (Re.lit c).run (x :: s) caps k = if x = c then k s caps else none := rfl

theorem take_front (xs rest : GoString) :
    (xs ++ rest).take ((xs ++ rest).length - rest.length) = xs := by
  simp

theorem matchRe_userLine (nick user dom host act chan msg : GoString)
    (h1 : nick ≠ [] ∧ ∀ x ∈ nick, clsAz09 x = true)
    (h2 : user ≠ [] ∧ ∀ x ∈ user, clsAz09 x = true)
    (h3 : dom ≠ [] ∧ ∀ x ∈ dom, clsAz09 x = true)
    (h4 : host ≠ [] ∧ ∀ x ∈ host, clsNotSpace x = true)
    (h5 : act ≠ [] ∧ ∀ x ∈ act, clsAZ09 x = true)
    (h6 : chan ≠ [] ∧ ∀ x ∈ chan, clsAz x = true)
    (h7 : ∀ x ∈ msg, clsDot x = true) :
    FindStringSubmatch matchRe 6 (userLine nick user dom host act chan msg) =
      some [userLine nick user dom host act chan msg, nick, user, host, act, chan, msg] := by
  unfold userLine
  simp only [FindStringSubmatch]
  apply firstOf_left
  simp only [matchRe, Re.cat, run_group, run_seq, run_opt, run_lit, if_true]
  apply firstOf_left
  refine run_plus_greedy _ _ _ _ _ _ h1.1 h1.2 (by intro y ys h; cases h; decide) ?_
  simp only [run_lit, if_true]
  refine run_plus_greedy _ _ _ _ _ _ h2.1 h2.2 (by intro y ys h; cases h; decide) ?_
  simp only [run_lit, if_true]
  refine run_plus_greedy _ _ _ _ _ _ h3.1 h3.2 (by intro y ys h; cases h; decide) ?_
  simp only [run_lit, if_true]
  refine run_plus_greedy _ _ _ _ _ _ h4.1 h4.2 (by intro y ys h; cases h; decide) ?_
  simp only [run_lit, if_true]
  refine run_plus_greedy _ _ _ _ _ _ h5.1 h5.2 (by intro y ys h; cases h; decide) ?_
  simp only [run_lit, if_true]
  have hne : ¬ ('#' : Char) = '*' := by decide
  simp only [hne, if_false, firstOf_none]
  apply firstOf_left
  apply firstOf_left
  refine run_plus_greedy _ _ _ _ _ _ h6.1 h6.2 (by intro y ys h; cases h; decide) ?_
  simp only [run_lit, if_true]
  apply firstOf_left
  refine run_star_greedy _ _ _ _ _ h7 ?_
  simp only [take_front, List.length_nil, Nat.sub_zero, List.take_length]
  rfl

/-! ## Lemmas: the two blocks of `parse` -/

theorem Split_ne_nil (sep : Char) : ∀ s : GoString, ∃ h t, Split s sep = h :: t
  | [] => ⟨[], [], rfl⟩
  | c :: cs => by
    obtain ⟨h, t, e⟩ := Split_ne_nil sep cs
    by_cases hc : c = sep
    · exact ⟨[], Split cs sep, by simp [Split, hc]⟩
    · exact ⟨c :: h, t, by simp [Split, hc, e]⟩

theorem parseTagsLoop_eq : ∀ (items : List GoString) (tags : TagMap),
    parseTagsLoop items tags =
      .ok (items.foldl (fun t kv => GoMap.set t (tagName kv) (tagValue kv)) tags)
  | [], _ => rfl
  | kv :: rest, tags => by
    obtain ⟨h, t, e⟩ := Split_ne_nil '=' kv
    have ih := parseTagsLoop_eq rest (GoMap.set tags (tagName kv) (tagValue kv))
    cases t with
    | nil => simpa [parseTagsLoop, tagName, tagValue, e, index, bind, Except.bind] using ih
    | cons v t2 =>
      simpa [parseTagsLoop, tagName, tagValue, e, index, bind, Except.bind] using ih

theorem parseMessage_ok (event : Event) (line : GoString) :
    ∃ e, parseMessage event line = .ok e ∧ e.Raw = event.Raw ∧ e.Tags = event.Tags := by
  unfold parseMessage
  split
  · split
    · rename_i m hm
      have hl := FindStringSubmatch_length _ _ _ _ hm
      match m, hl with
      | [m0, m1, m2, m3, m4, m5, m6], _ =>
        exact ⟨_, rfl, rfl, rfl⟩
    · exact ⟨_, rfl, rfl, rfl⟩
  · exact ⟨_, rfl, rfl, rfl⟩

theorem SplitN_two (sep : Char) : ∀ s : GoString,
    (sep ∉ s ∧ SplitN s sep 2 = [s]) ∨
      (∃ a b, sep ∉ a ∧ s = a ++ sep :: b ∧ SplitN s sep 2 = [a, b])
  | [] => Or.inl ⟨by simp, rfl⟩
  | c :: cs => by
    by_cases hc : c = sep
    · exact Or.inr ⟨[], cs, by simp, by simp [hc], by simp [SplitN, hc]⟩
    · rcases SplitN_two sep cs with ⟨h1, h2⟩ | ⟨a, b, h1, h2, h3⟩
      · exact Or.inl ⟨by simp [h1, Ne.symm hc], by simp [SplitN, hc, h2]⟩
      · exact Or.inr ⟨c :: a, b, by simp [h1, Ne.symm hc], by simp [h2],
          by simp [SplitN, hc, h3]⟩

theorem parse_tagged (pre rest : GoString) (h : ' ' ∉ pre) :
    ∃ e, parse ('@' :: (pre ++ ' ' :: rest)) = .ok e ∧
      e.Raw = '@' :: (pre ++ ' ' :: rest) ∧
      e.Tags = (Split pre ';').foldl (fun t kv => GoMap.set t (tagName kv) (tagValue kv)) ([] : TagMap) := by
  rcases SplitN_two ' ' (pre ++ ' ' :: rest) with ⟨h1, -⟩ | ⟨a, b, h1, h2, h3⟩
  · simp at h1
  · have hab : a = pre ∧ b = rest := by
      have := (List.append_eq_append_iff).1 h2
      rcases this with ⟨x, hx1, hx2⟩ | ⟨x, hx1, hx2⟩
      · cases x with
        | nil => simp at hx1 hx2; exact ⟨by rw [hx1], by rw [hx2]⟩
        | cons y ys =>
          simp at hx2
          exact absurd (by rw [hx1, hx2.1]; simp) h1
      · cases x with
        | nil => simp at hx1 hx2; exact ⟨by rw [hx1], by rw [hx2]⟩
        | cons y ys =>
          simp at hx2
          exact absurd (by rw [hx1, hx2.1]; simp) h
    obtain ⟨rfl, rfl⟩ := hab
    obtain ⟨e, he, hr, ht⟩ := parseMessage_ok
      { Tags := (Split a ';').foldl (fun t kv => GoMap.set t (tagName kv) (tagValue kv)) ([] : TagMap),
        Raw := '@' :: (a ++ ' ' :: b) } b
    refine ⟨e, ?_, hr, ht⟩
    simp [parse, HasPrefix, TrimPrefix, h3, index, parseTagsLoop_eq, bind, Except.bind, he]

theorem parse_untagged (line : GoString) (h : HasPrefix line "@".toList = false) :
    ∃ e, parse line = .ok e ∧ e.Raw = line ∧ e.Tags = [] := by
  obtain ⟨e, he, hr, ht⟩ := parseMessage_ok { Tags := [], Raw := line } line
  exact ⟨e, by simp only [parse, h, Bool.false_eq_true, if_false, he], hr, ht⟩

theorem parse_tags_alone (pre : GoString) (h : ' ' ∉ pre) :
    parse ('@' :: pre) = .error .indexOutOfRange := by
  rcases SplitN_two ' ' pre with ⟨-, h2⟩ | ⟨a, b, -, h2, -⟩
  · simp [parse, HasPrefix, TrimPrefix, h2, index, bind, Except.bind]
  · exact absurd (by rw [h2]; simp) h

theorem HasPrefix_at (line : GoString) :
    HasPrefix line "@".toList = true ↔ ∃ pre, line = '@' :: pre := by
  cases line with
  | nil => simp [HasPrefix]
  | cons c cs =>
    constructor
    · intro h
      have : '@' = c := by simpa [HasPrefix] using h
      exact ⟨cs, by rw [this]⟩
    · rintro ⟨pre, h⟩
      cases h
      simp [HasPrefix]

/-- The decoder returns an event exactly on the lines that do not consist of a
tag prefix alone, and the event then carries the line unchanged. -/
theorem parse_completes_iff (line : GoString) :
    (∃ e, parse line = .ok e ∧ e.Raw = line) ↔
      ¬ (HasPrefix line "@".toList = true ∧ ' ' ∉ line) := by
  by_cases hp : HasPrefix line "@".toList = true
  · obtain ⟨pre, rfl⟩ := (HasPrefix_at line).1 hp
    by_cases hs : ' ' ∈ pre
    · obtain ⟨a, b, rfl, ha⟩ := List.eq_append_cons_of_mem hs
      obtain ⟨e, he, hr, -⟩ := parse_tagged a b ha
      constructor
      · intro _ hc
        exact hc.2 (by simp)
      · intro _
        exact ⟨e, he, hr⟩
    · constructor
      · rintro ⟨e, he, -⟩
        rw [parse_tags_alone pre hs] at he
        cases he
      · intro hc
        exact absurd ⟨hp, by simpa using hs⟩ hc
  · have hp2 : HasPrefix line "@".toList = false := by simpa using hp
    obtain ⟨e, he, hr, -⟩ := parse_untagged line hp2
    constructor
    · intro _ hc
      exact hp hc.1
    · intro _
      exact ⟨e, he, hr⟩

theorem Split_tagPrefix : ∀ kvs : List (GoString × GoString), kvs ≠ [] →
    (∀ p ∈ kvs, ';' ∉ tagItem p) → Split (tagPrefix kvs) ';' = kvs.map tagItem
  | [], h, _ => absurd rfl h
  | [p], _, h => by
    simpa [tagPrefix] using Split_of_not_mem ';' (tagItem p) (h p (by simp))
  | p :: q :: rest, _, h => by
    have ih := Split_tagPrefix (q :: rest) (by simp) (fun x hx => h x (List.mem_cons_of_mem _ hx))
    rw [tagPrefix, Split_append_sep _ _ _ (h p (by simp)), ih]
    rfl

theorem not_mem_tagPrefix (c : Char) (hc : c ≠ '=') (hc2 : c ≠ ';') :
    ∀ kvs : List (GoString × GoString), (∀ p ∈ kvs, c ∉ p.1 ∧ c ∉ p.2) → c ∉ tagPrefix kvs
  | [], _ => by simp [tagPrefix]
  | [p], h => by
    have := h p (by simp)
    simp [tagPrefix, tagItem, this.1, this.2, hc]
  | p :: q :: rest, h => by
    have := h p (by simp)
    have ih := not_mem_tagPrefix c hc hc2 (q :: rest) (fun x hx => h x (List.mem_cons_of_mem _ hx))
    simp only [tagPrefix, tagItem, List.mem_append, List.mem_cons, not_or]
    exact ⟨⟨this.1, hc, this.2⟩, hc2, ih⟩

theorem tagName_item (k v : GoString) (hk : '=' ∉ k) : tagName (tagItem (k, v)) = k := by
  simp [tagName, tagItem, Split_append_sep _ _ _ hk]

theorem tagValue_item (k v : GoString) (hk : '=' ∉ k) (hv : '=' ∉ v) :
    tagValue (tagItem (k, v)) = v := by
  simp [tagValue, tagItem, Split_append_sep _ _ _ hk, Split_of_not_mem _ _ hv]

theorem set_of_not_mem {β : Type} : ∀ (m : GoMap β) (k : GoString) (v : β),
    k ∉ m.keys → GoMap.set m k v = m ++ [(k, v)]
  | [], _, _, _ => rfl
  | (k1, v1) :: m, k, v, h => by
    have h1 : k1 ≠ k := by
      intro e
      apply h
      subst e
      exact List.mem_cons_self _ _
    have ih := set_of_not_mem m k v (fun hm => h (by
      simp only [GoMap.keys, List.map_cons, List.mem_cons]
      exact Or.inr hm))
    simp [GoMap.set, h1, ih]

theorem foldl_set_items : ∀ (kvs acc : List (GoString × GoString)),
    (∀ p ∈ kvs, '=' ∉ p.1 ∧ '=' ∉ p.2) →
    (acc.map Prod.fst ++ kvs.map Prod.fst).Nodup →
    (kvs.map tagItem).foldl (fun t kv => GoMap.set t (tagName kv) (tagValue kv)) acc
      = acc ++ kvs
  | [], acc, _, _ => by simp
  | (k, v) :: kvs, acc, h, hd => by
    have hkv := h (k, v) (by simp)
    have hnot : k ∉ GoMap.keys acc := by
      intro hm
      have := List.nodup_append.1 hd
      exact this.2.2 hm (by simp)
    have hd2 : ((acc ++ [(k, v)]).map Prod.fst ++ kvs.map Prod.fst).Nodup := by
      simpa [List.append_assoc] using hd
    have ih := foldl_set_items kvs (acc ++ [(k, v)])
      (fun p hp => h p (List.mem_cons_of_mem _ hp)) hd2
    simp only [List.map_cons, List.foldl_cons, tagName_item k v hkv.1,
      tagValue_item k v hkv.1 hkv.2, set_of_not_mem acc k v hnot]
    rw [ih]
    simp

/-- The tag block on a prefix `k1=v1;...;kn=vn` whose names are distinct, whose
names and values contain none of `;`, `=` and the space: the tag mapping of the
decoded event is exactly `k1 ↦ v1, ..., kn ↦ vn`. -/
theorem parse_tags_roundtrip (kvs : List (GoString × GoString)) (rest : GoString)
    (hne : kvs ≠ [])
    (h : ∀ p ∈ kvs, (';' ∉ p.1 ∧ '=' ∉ p.1 ∧ ' ' ∉ p.1) ∧ (';' ∉ p.2 ∧ '=' ∉ p.2 ∧ ' ' ∉ p.2))
    (hd : (kvs.map Prod.fst).Nodup) :
    ∃ e, parse ('@' :: (tagPrefix kvs ++ ' ' :: rest)) = .ok e ∧ e.Tags = kvs := by
  have hsp : ' ' ∉ tagPrefix kvs :=
    not_mem_tagPrefix ' ' (by decide) (by decide) kvs (fun p hp => ⟨(h p hp).1.2.2, (h p hp).2.2.2⟩)
  obtain ⟨e, he, -, ht⟩ := parse_tagged (tagPrefix kvs) rest hsp
  refine ⟨e, he, ?_⟩
  rw [ht, Split_tagPrefix kvs hne, foldl_set_items kvs [] ?_ (by simpa using hd)]
  · rfl
  · exact fun p hp => ⟨(h p hp).1.2.1, (h p hp).2.2.1⟩
  · intro p hp
    have := h p hp
    simp [tagItem, this.1.1, this.2.1]

theorem clsAz09_of_isAlnum (c : Char) (h : isAlnum c) : clsAz09 c = true := by
  rcases h with ⟨h1, h2⟩ | ⟨h1, h2⟩ | ⟨h1, h2⟩
  · have : 'A' ≤ c := Char.le_trans (by decide) h1
    simp [clsAz09, this, h2]
  · have : c ≤ 'z' := Char.le_trans h2 (by decide)
    simp [clsAz09, this, h1]
  · simp [clsAz09, h1, h2]

theorem clsAz_of_isLowerOrUnderscore (c : Char) (h : isLowerOrUnderscore c) :
    clsAz c = true := by
  rcases h with ⟨h1, h2⟩ | rfl
  · have : 'A' ≤ c := Char.le_trans (by decide) h1
    simp [clsAz, this, h2]
  · decide

theorem roundTripLine_eq (n c m : GoString) :
    roundTripLine n c m =
      userLine n n n "tmi.twitch.tv".toList "PRIVMSG".toList c m := by
  simp [roundTripLine, userLine, PrivateMessage.String, List.append_assoc]

theorem parseMessage_userLine (event : Event) (nick user dom host act chan msg : GoString)
    (h1 : nick ≠ [] ∧ ∀ x ∈ nick, clsAz09 x = true)
    (h2 : user ≠ [] ∧ ∀ x ∈ user, clsAz09 x = true)
    (h3 : dom ≠ [] ∧ ∀ x ∈ dom, clsAz09 x = true)
    (h4 : host ≠ [] ∧ ∀ x ∈ host, clsNotSpace x = true)
    (h5 : act ≠ [] ∧ ∀ x ∈ act, clsAZ09 x = true)
    (h6 : chan ≠ [] ∧ ∀ x ∈ chan, clsAz x = true)
    (h7 : ∀ x ∈ msg, clsDot x = true) :
    parseMessage event (userLine nick user dom host act chan msg) =
      .ok { event with
        Nick := nick, User := user, Host := host, Action := act, Channel := chan,
        Message := msg } := by
  have hm := matchRe_userLine nick user dom host act chan msg h1 h2 h3 h4 h5 h6 h7
  have hp : HasPrefix (userLine nick user dom host act chan msg) ":".toList = true := by
    simp [userLine, HasPrefix]
  simp only [parseMessage, hp, if_true, hm]
  rfl

/-- The round trip for channel names of lowercase letters and underscores: for
a non-empty nickname of letters and digits, such a non-empty channel name and a
body without line feed, the decoded event has the command, channel, body,
nickname and user of the line, the host `tmi.twitch.tv`, no tags, and the line
itself as `Raw`. -/
theorem parse_privmsg_roundtrip (n c m : GoString)
    (hn : n ≠ [] ∧ ∀ x ∈ n, isAlnum x)
    (hc : c ≠ [] ∧ ∀ x ∈ c, isLowerOrUnderscore x)
    (hm : '\n' ∉ m) :
    parse (roundTripLine n c m) =
      .ok { Action := PrivMsg, Raw := roundTripLine n c m, Tags := [], Message := m,
            Channel := c, Nick := n, User := n, Host := "tmi.twitch.tv".toList } := by
  have h1 : n ≠ [] ∧ ∀ x ∈ n, clsAz09 x = true :=
    ⟨hn.1, fun x hx => clsAz09_of_isAlnum x (hn.2 x hx)⟩
  have h6 : c ≠ [] ∧ ∀ x ∈ c, clsAz x = true :=
    ⟨hc.1, fun x hx => clsAz_of_isLowerOrUnderscore x (hc.2 x hx)⟩
  have h7 : ∀ x ∈ m, clsDot x = true := by
    intro x hx
    have : x ≠ '\n' := fun e => hm (e ▸ hx)
    simp [clsDot, this]
  have hat : HasPrefix (roundTripLine n c m) "@".toList = false := by
    rw [roundTripLine_eq]
    simp [userLine, HasPrefix, List.isPrefixOf]
  have hpm := parseMessage_userLine { Tags := [], Raw := roundTripLine n c m } n n n
    "tmi.twitch.tv".toList "PRIVMSG".toList c m h1 h1 h1 (by decide) (by decide) h6 h7
  rw [← roundTripLine_eq] at hpm
  simp only [parse, hat, Bool.false_eq_true, if_false, hpm]
  rfl

/-- The round trip at the line of the test case `privmsg`. -/
theorem parse_privmsg_roundtrip_at_test :
    parse (roundTripLine "alpinesoftware".toList "blendedsoftware".toList "hello world".toList) =
      .ok { Action := PrivMsg,
            Raw := roundTripLine "alpinesoftware".toList "blendedsoftware".toList
              "hello world".toList,
            Tags := [], Message := "hello world".toList,
            Channel := "blendedsoftware".toList, Nick := "alpinesoftware".toList,
            User := "alpinesoftware".toList, Host := "tmi.twitch.tv".toList } :=
  parse_privmsg_roundtrip _ _ _ ⟨by decide, by decide⟩ ⟨by decide, by decide⟩ (by decide)

/-- The tag block at the eight tags of the test case `privmsg_tags`, five of
them with an empty value. -/
theorem parse_tags_roundtrip_at_test :
    ∃ e, parse ('@' :: (tagPrefix
        [("badge-info".toList, []), ("badges".toList, []), ("color".toList, []),
         ("display-name".toList, "nerdwaller_bot".toList),
         ("emote-sets".toList, "0".toList), ("mod".toList, "0".toList),
         ("subscriber".toList, "0".toList), ("user-type".toList, [])]
        ++ ' ' :: privmsgLine)) = .ok e ∧
      e.Tags =
        [("badge-info".toList, []), ("badges".toList, []), ("color".toList, []),
         ("display-name".toList, "nerdwaller_bot".toList),
         ("emote-sets".toList, "0".toList), ("mod".toList, "0".toList),
         ("subscriber".toList, "0".toList), ("user-type".toList, [])] :=
  parse_tags_roundtrip _ _ (by decide) (by decide) (by decide)

/-! ## Lemmas: badge lists -/

theorem Atoi_neg_decimal (t : GoString) (ht : IsDecimal t) (hv : decimalValue t ≤ 2 ^ 63) :
    Atoi ('-' :: t) = (-(decimalValue t : Int), none) := by
  obtain ⟨hne, hd⟩ := ht
  have hu : ParseUint t = (decimalValue t, none) := by
    simp only [ParseUint, hne, if_false]
    exact parseUintLoop_digits _ _ hd (by unfold decimalValue at hv; omega)
  have hv2 : ¬ (decimalValue t > 2 ^ 63) := by omega
  simp [Atoi, ParseInt, hu]
  omega

theorem Atoi_decimalInt (s : GoString) (hs : IsDecimalInt s)
    (h0 : -2 ^ 63 ≤ decimalIntValue s) (h1 : decimalIntValue s < 2 ^ 63) :
    Atoi s = (decimalIntValue s, none) := by
  rcases hs with hs | ⟨t, rfl, ht⟩
  · obtain ⟨c, cs, rfl⟩ : ∃ c cs, s = c :: cs := by
      cases s with
      | nil => exact absurd rfl hs.1
      | cons c cs => exact ⟨c, cs, rfl⟩
    have hc := (digit_ne_sign c (hs.2 c (by simp))).2
    have hval : decimalIntValue (c :: cs) = (decimalValue (c :: cs) : Int) := by
      unfold decimalIntValue
      split
      · rename_i t heq
        injection heq with e1 e2
        exact absurd e1 hc
      · rfl
    rw [hval] at h1 ⊢
    exact Atoi_decimal _ hs (by omega)
  · have hval : decimalIntValue ('-' :: t) = -(decimalValue t : Int) := rfl
    rw [hval] at h0 ⊢
    exact Atoi_neg_decimal t ht (by omega)

theorem decimalInt_not_mem (s : GoString) (hs : IsDecimalInt s) : ',' ∉ s ∧ '/' ∉ s := by
  rcases hs with hs | ⟨t, rfl, ht⟩
  · constructor <;> intro h <;> have := hs.2 _ h <;> revert this <;> decide
  · constructor <;> intro h <;> simp at h <;> have := ht.2 _ h <;> revert this <;> decide

theorem Split_badgeList : ∀ es : List (GoString × GoString), es ≠ [] →
    (∀ p ∈ es, ',' ∉ badgeEntry p) → Split (badgeList es) ',' = es.map badgeEntry
  | [], h, _ => absurd rfl h
  | [p], _, h => by
    simpa [badgeList] using Split_of_not_mem ',' (badgeEntry p) (h p (by simp))
  | p :: q :: rest, _, h => by
    have ih := Split_badgeList (q :: rest) (by simp)
      (fun x hx => h x (List.mem_cons_of_mem _ hx))
    rw [badgeList, Split_append_sep _ _ _ (h p (by simp)), ih]
    rfl

theorem badgeList_ne_nil : ∀ es : List (GoString × GoString), es ≠ [] → badgeList es ≠ []
  | [], h => absurd rfl h
  | [p], _ => by simp [badgeList, badgeEntry]
  | p :: q :: rest, _ => by simp [badgeList, badgeEntry]

theorem badgeEntry_no_comma (p : GoString × GoString) (h : IsBadgeEntry p) :
    ',' ∉ badgeEntry p := by
  obtain ⟨h1, -, h3, -, -⟩ := h
  have := (decimalInt_not_mem p.2 h3).1
  simp [badgeEntry, h1, this]

theorem parseCsvSlashLoop_entries : ∀ (es : List (GoString × GoString)) (acc : GoMap Int),
    (∀ p ∈ es, IsBadgeEntry p) →
    (acc.map Prod.fst ++ es.map Prod.fst).Nodup →
    parseCsvSlashLoop (es.map badgeEntry) acc
      = .ok (acc ++ es.map (fun p => (p.1, decimalIntValue p.2)))
  | [], acc, _, _ => by simp [parseCsvSlashLoop]
  | (n, v) :: es, acc, h, hd => by
    obtain ⟨-, h2, h3, h4, h5⟩ := h (n, v) (by simp)
    have hs : Split (badgeEntry (n, v)) '/' = [n, v] := by
      show Split (n ++ '/' :: v) '/' = [n, v]
      rw [Split_append_sep _ _ _ h2, Split_of_not_mem _ _ (decimalInt_not_mem v h3).2]
    have ha := Atoi_decimalInt v h3 h4 h5
    have hnot : n ∉ GoMap.keys acc := by
      intro hm
      exact (List.nodup_append.1 hd).2.2 hm (by simp)
    have hd2 : ((acc ++ [(n, decimalIntValue v)]).map Prod.fst ++ es.map Prod.fst).Nodup := by
      simpa [List.append_assoc] using hd
    have ih := parseCsvSlashLoop_entries es (acc ++ [(n, decimalIntValue v)])
      (fun p hp => h p (List.mem_cons_of_mem _ hp)) hd2
    simp only [List.map_cons, parseCsvSlashLoop, hs, index, List.get?, bind, Except.bind, ha,
      set_of_not_mem acc n _ hnot, ih]
    simp

theorem lookup_of_mem_nodup {β : Type} : ∀ (m : GoMap β) (k : GoString) (v : β),
    (m.map Prod.fst).Nodup → (k, v) ∈ m → GoMap.lookup m k = some v
  | [], _, _, _, h => by simp at h
  | (k1, v1) :: m, k, v, hd, h => by
    simp only [List.map_cons, List.nodup_cons] at hd
    rcases List.mem_cons.1 h with h1 | h1
    · cases h1
      simp [GoMap.lookup]
    · have hne : k1 ≠ k := by
        intro e
        subst e
        exact hd.1 (List.mem_map.2 ⟨(k1, v), h1, rfl⟩)
      simp [GoMap.lookup, hne, lookup_of_mem_nodup m k v hd.2 h1]

theorem parseCsvSlash_badgeList (es : List (GoString × GoString)) (hne : es ≠ [])
    (h : ∀ p ∈ es, IsBadgeEntry p) (hd : (es.map Prod.fst).Nodup) :
    parseCsvSlash (badgeList es) [] = .ok (es.map (fun p => (p.1, decimalIntValue p.2))) := by
  have h1 := Split_badgeList es hne (fun p hp => badgeEntry_no_comma p (h p hp))
  have h2 := parseCsvSlashLoop_entries es [] h (by simpa using hd)
  simp only [parseCsvSlash, badgeList_ne_nil es hne, if_false, h1, h2, List.nil_append]

theorem GlobalUserStateTags_badges (g : GlobalUserStateTags) (tags : TagMap) (msg : GoString)
    (r : GlobalUserStateTags × Option NumError)
    (h : GlobalUserStateTags.newFromTags g tags msg = .ok r) :
    parseCsvSlash (tags.at "badge-info".toList) [] = .ok r.1.BadgeInfo ∧
      parseCsvSlash (tags.at "badges".toList) [] = .ok r.1.Badges := by
  unfold GlobalUserStateTags.newFromTags at h
  obtain ⟨a, ha, h⟩ := except_bind_ok _ _ _ h
  obtain ⟨b, hb, h⟩ := except_bind_ok _ _ _ h
  cases h
  exact ⟨ha, hb⟩

/-! ## Lemmas: the backoff -/

theorem wrap64_range (x : Int) (h0 : -2 ^ 63 ≤ x) (h1 : x < 2 ^ 63) : wrap64 x = x := by
  unfold wrap64
  omega

theorem Milliseconds_whole (c : Int) : Milliseconds (c * Millisecond) = c := by
  unfold Milliseconds Millisecond
  exact Int.mul_tdiv_cancel c (by decide)

theorem wait_whole (b : backoff) (c M : Int) (hcur : b.current = c * Millisecond)
    (hmax : b.max = M * Millisecond)
    (hov : -2 ^ 63 ≤ c * b.factor * 1000000 ∧ c * b.factor * 1000000 < 2 ^ 63) :
    b.wait = { b with current := min (c * b.factor) M * Millisecond } := by
  have h1 : wrap64 (c * b.factor) = c * b.factor := by
    apply wrap64_range <;> generalize c * b.factor = x at hov <;> omega
  have h2 : wrap64 (c * b.factor * Millisecond) = c * b.factor * Millisecond := by
    apply wrap64_range <;> unfold Millisecond <;> omega
  unfold backoff.wait
  simp only [hcur, Milliseconds_whole, h1, h2, hmax]
  by_cases h : c * b.factor ≤ M
  · have : ¬ (c * b.factor * Millisecond > M * Millisecond) := by
      unfold Millisecond; generalize c * b.factor = x at h; omega
    simp [this, min_eq_left h]
  · have : c * b.factor * Millisecond > M * Millisecond := by
      unfold Millisecond; generalize c * b.factor = x at h; omega
    simp [this, min_eq_right (le_of_not_le h)]

theorem min_step (D M F P : Int) (hF : 1 ≤ F) (hP : 1 ≤ P) (hDM : D ≤ M) :
    min (min (D * P) M * F) M = min (D * P * F) M := by
  by_cases h : D * P ≤ M
  · rw [min_eq_left h]
  · have h1 : M < D * P := lt_of_not_le h
    have hD : 0 < D := by
      by_contra hn
      have : D * P ≤ D := by nlinarith
      omega
    have hM : 0 < M := by omega
    have h2 : M ≤ M * F := by nlinarith
    have h3 : M ≤ D * P * F := by nlinarith
    rw [min_eq_right (le_of_lt h1), min_eq_right h2, min_eq_right h3]

theorem waits_fields (k : Nat) (b : backoff) :
    (backoff.waits k b).def_ = b.def_ ∧ (backoff.waits k b).max = b.max ∧
      (backoff.waits k b).factor = b.factor := by
  induction k with
  | zero => exact ⟨rfl, rfl, rfl⟩
  | succ n ih =>
    simp only [backoff.waits, backoff.wait]
    split <;> exact ih

theorem wait_zero (b : backoff) (h : b.current = 0) (hm : 0 ≤ b.max) :
    b.wait.current = 0 := by
  have hm2 : (0 : Int) ≤ b.max := hm
  have hn : ¬ ((0 : Int) > b.max) := by omega
  simp [backoff.wait, h, Milliseconds, wrap64, hn]

theorem waits_backer_zero (k : Nat) : (backoff.waits k backer).current = 0 := by
  induction k with
  | zero => rfl
  | succ n ih =>
    have hm : (backoff.waits n backer).max = backer.max := (waits_fields n backer).2.1
    exact wait_zero _ ih (by rw [hm]; decide)

theorem backerInBounds_reset (b : backoff) (h : backerInBounds b) :
    backerInBounds b.reset := by
  obtain ⟨h1, h2, h3, -, -⟩ := h
  refine ⟨h1, h2, h3, le_refl _, ?_⟩
  show b.def_ ≤ b.max
  rw [h1, h2]; decide

theorem wait_current_doubles (b : backoff) (hf : b.factor = 2)
    (h0 : (1000000000 : Int) ≤ b.current) (h1 : (b.current : Int) ≤ 30000000000) :
    b.wait.current =
      if b.current / 1000000 * 2 * 1000000 > b.max then b.max
      else b.current / 1000000 * 2 * 1000000 := by
  have hq : Milliseconds b.current = b.current / 1000000 := by
    unfold Milliseconds
    exact Int.tdiv_eq_ediv (by omega) (by decide)
  have w1 : wrap64 (b.current / 1000000 * 2) = b.current / 1000000 * 2 := by
    apply wrap64_range <;> omega
  have w2 : wrap64 (b.current / 1000000 * 2 * Millisecond)
      = b.current / 1000000 * 2 * 1000000 := by
    unfold Millisecond
    apply wrap64_range <;> omega
  unfold backoff.wait
  simp only [hq, hf, w1, w2]
  split <;> rfl

theorem backerInBounds_wait (b : backoff) (h : backerInBounds b) :
    backerInBounds b.wait := by
  obtain ⟨h1, h2, h3, h4, h5⟩ := h
  have d1 : backer.def_ = (1000000000 : Int) := rfl
  have d2 : backer.max = (30000000000 : Int) := rfl
  have d3 : backer.factor = 2 := rfl
  have e1 : b.def_ = (1000000000 : Int) := h1.trans d1
  have e2 : b.max = (30000000000 : Int) := h2.trans d2
  have h4i : (1000000000 : Int) ≤ b.current := by rw [← e1]; exact h4
  have h5i : (b.current : Int) ≤ 30000000000 := by rw [← e2]; exact h5
  obtain ⟨f1, f2, f3⟩ := waits_fields 1 b
  have hc := wait_current_doubles b (h3.trans d3) h4i h5i
  refine ⟨f1.trans h1, f2.trans h2, f3.trans h3, ?_, ?_⟩
  · show (b.wait.def_ : Int) ≤ b.wait.current
    have g1 : b.wait.def_ = (1000000000 : Int) := f1.trans e1
    rw [g1, hc, e2]
    split <;> omega
  · show (b.wait.current : Int) ≤ b.wait.max
    have g2 : b.wait.max = (30000000000 : Int) := f2.trans e2
    rw [g2, hc, e2]
    split <;> omega

/-- After a `reset()`, every sequence of `wait()` and `reset()` calls keeps the
backoff of `Run` between its bounds. -/
theorem backer_bounds_after_reset (cs : List BackoffCall) (b : backoff)
    (h : backerInBounds b) : backerInBounds (backoff.calls b cs) := by
  induction cs generalizing b with
  | nil => exact h
  | cons x rest ih =>
    cases x with
    | wait => exact ih _ (backerInBounds_wait b h)
    | reset => exact ih _ (backerInBounds_reset b h)

/-! ## Lemmas: lookups after the tag loop -/

theorem lookup_set_self {β : Type} : ∀ (m : GoMap β) (k : GoString) (v : β),
    GoMap.lookup (GoMap.set m k v) k = some v
  | [], k, v => by simp [GoMap.set, GoMap.lookup]
  | (k1, v1) :: m, k, v => by
    by_cases h : k1 = k
    · simp [GoMap.set, GoMap.lookup, h]
    · simp [GoMap.set, GoMap.lookup, h, lookup_set_self m k v]

theorem lookup_set_other {β : Type} : ∀ (m : GoMap β) (k1 k : GoString) (v : β),
    k1 ≠ k → GoMap.lookup (GoMap.set m k1 v) k = GoMap.lookup m k
  | [], k1, k, v, h => by simp [GoMap.set, GoMap.lookup, h]
  | (k2, v2) :: m, k1, k, v, h => by
    by_cases h2 : k2 = k1
    · subst h2
      simp [GoMap.set, GoMap.lookup, h]
    · by_cases h3 : k2 = k
      · subst h3
        simp [GoMap.set, GoMap.lookup, h2]
      · simp [GoMap.set, GoMap.lookup, h2, h3, lookup_set_other m k1 k v h]

theorem lookup_foldl_other (k : GoString) : ∀ (items : List GoString) (acc : TagMap),
    (∀ kv ∈ items, tagName kv ≠ k) →
    GoMap.lookup (items.foldl (fun t kv => GoMap.set t (tagName kv) (tagValue kv)) acc) k
      = GoMap.lookup acc k
  | [], _, _ => rfl
  | kv :: rest, acc, h => by
    have ih := lookup_foldl_other k rest (GoMap.set acc (tagName kv) (tagValue kv))
      (fun x hx => h x (List.mem_cons_of_mem _ hx))
    simp only [List.foldl_cons, ih]
    exact lookup_set_other acc _ k _ (h kv (List.mem_cons_self _ _))

theorem tagName_bare (k : GoString) (h : '=' ∉ k) : tagName k = k ∧ tagValue k = [] := by
  simp [tagName, tagValue, Split_of_not_mem '=' k h]

theorem lookup_foldl_once (k : GoString) (hk : '=' ∉ k) (items : List GoString)
    (acc : TagMap) (hmem : k ∈ items) (honce : (items.map tagName).count k = 1) :
    GoMap.lookup (items.foldl (fun t kv => GoMap.set t (tagName kv) (tagValue kv)) acc) k
      = some [] := by
  obtain ⟨l1, l2, rfl⟩ := List.append_of_mem hmem
  obtain ⟨hn, hv⟩ := tagName_bare k hk
  have h2 : ∀ kv ∈ l2, tagName kv ≠ k := by
    intro kv hkv he
    have hc : 0 < (l2.map tagName).count k :=
      List.count_pos_iff.2 (List.mem_map.2 ⟨kv, hkv, he⟩)
    simp only [List.map_append, List.map_cons, List.count_append, List.count_cons, hn,
      beq_self_eq_true, if_true] at honce
    omega
  rw [List.foldl_append, List.foldl_cons, lookup_foldl_other k l2 _ h2, hn, hv]
  exact lookup_set_self _ _ _

/-! ## Lemmas: the control loop -/

theorem onEvent_welcome (u : UnicodeTrim) (c : Conn) :
    c.onEvent u ⟨welcomeLine, false⟩ =
      .ok (.loop, Conn.publish { c with loggedIn := true } welcomeEvent) := by
  have ht : TrimSpace u welcomeLine = welcomeLine := rfl
  have hc : Contains welcomeLine ":Welcome, GLHF!".toList = true := by decide
  have hp : HasPrefix welcomeLine "PING".toList = false := by decide
  have he : parse welcomeLine = .ok welcomeEvent := by decide
  unfold Conn.onEvent
  simp only [ht, hc, hp, he, Bool.and_true, Bool.false_eq_true, if_false]
  cases hl : c.loggedIn <;> simp [hl, bind, Except.bind, pure, Except.pure]
  congr 1
  cases c
  simp_all

/-! ## Lemmas: the emote sets -/

theorem parseUintLoop_nondigit (x : Char) (rest : GoString) (hx : isDigit x = false) :
    ∀ (ds : GoString) (n : Nat), (∀ c ∈ ds, isDigit c = true) →
      ds.foldl (fun n c => n * 10 + (c.toNat - '0'.toNat)) n < 2 ^ 64 →
      parseUintLoop (ds ++ x :: rest) n = (0, some .ErrSyntax)
  | [], n, _, _ => by
    have : ¬ ('0' ≤ x ∧ x ≤ '9') := by simpa [isDigit] using hx
    simp [parseUintLoop, this]
  | c :: cs, n, hd, hlt => by
    have hc : '0' ≤ c ∧ c ≤ '9' := by simpa [isDigit] using hd c (by simp)
    have hge := le_foldl_digits cs (n * 10 + (c.toNat - '0'.toNat))
    simp only [List.foldl_cons] at hlt
    have hsmall : ¬ (n * 10 + (c.toNat - '0'.toNat) ≥ 2 ^ 64) := by omega
    simp only [List.cons_append, parseUintLoop, hc, and_self, if_true, hsmall, if_false]
    exact parseUintLoop_nondigit x rest hx cs _ (fun y hy => hd y (List.mem_cons_of_mem _ hy)) hlt

theorem ParseUint_not_decimal (t : GoString) (ht : ¬ IsDecimal t)
    (hv : decimalValue (t.takeWhile isDigit) < 2 ^ 64) :
    ParseUint t = (0, some .ErrSyntax) := by
  by_cases hnil : t = []
  · simp [ParseUint, hnil]
  · have hsplit := List.takeWhile_append_dropWhile isDigit t
    have hdrop : t.dropWhile isDigit ≠ [] := by
      intro h
      apply ht
      refine ⟨hnil, fun c hc => ?_⟩
      have hall : ∀ x ∈ t, isDigit x = true := by
        rw [List.dropWhile_eq_nil_iff] at h
        exact h
      simpa [isDigit] using hall c hc
    obtain ⟨x, rest, hxr⟩ := List.exists_cons_of_ne_nil hdrop
    have hx : isDigit x = false := by
      have := List.head_dropWhile_not isDigit t hdrop
      simp only [hxr, List.head_cons] at this
      simpa using this
    have hd : ∀ c ∈ t.takeWhile isDigit, isDigit c = true :=
      fun c hc => List.mem_takeWhile_imp hc
    have := parseUintLoop_nondigit x rest hx (t.takeWhile isDigit) 0 hd hv
    rw [← hxr, hsplit] at this
    simp only [ParseUint, hnil, if_false, this]

theorem Atoi_not_decimal (f : GoString) (hf : ¬ IsSignedDecimal f)
    (hv : decimalValue (leadingDigits f) < 2 ^ 64) : (Atoi f).1 = 0 := by
  cases f with
  | nil => rfl
  | cons c cs =>
    have hu := ParseUint_not_decimal (stripSign (c :: cs)) hf hv
    simp only [stripSign] at hu
    simp only [Atoi, ParseInt, hu, if_true]

theorem EmoteSetFor_Atoi (f : GoString) : EmoteSetFor f (Atoi f).1 := by
  constructor
  · exact Atoi_not_decimal f
  · intro h1 h2 h3
    rw [Atoi_decimalInt f h1 h2 h3]

theorem GlobalUserStateTags_emoteSets (g : GlobalUserStateTags) (tags : TagMap)
    (msg : GoString) (r : GlobalUserStateTags × Option NumError)
    (h : GlobalUserStateTags.newFromTags g tags msg = .ok r) :
    r.1.EmoteSets = (Split (tags.at "emote-sets".toList) ',').map (fun e => (Atoi e).1) := by
  unfold GlobalUserStateTags.newFromTags at h
  obtain ⟨a, -, h⟩ := except_bind_ok _ _ _ h
  obtain ⟨b, -, h⟩ := except_bind_ok _ _ _ h
  cases h
  rfl

theorem UserStateTags_embedded (ust : UserStateTags) (tags : TagMap) (msg : GoString)
    (r : UserStateTags × Option NumError)
    (h : UserStateTags.newFromTags ust tags msg = .ok r) :
    ∃ g, GlobalUserStateTags.newFromTags {} tags msg = .ok g ∧
      r.1.GlobalUserStateTags = some g.1 := by
  unfold UserStateTags.newFromTags at h
  obtain ⟨g, hg, h⟩ := except_bind_ok _ _ _ h
  cases h
  exact ⟨g, hg, rfl⟩

theorem PrivMsgTags_embedded (uuidParse : GoString → UUID) (pmt : PrivMsgTags)
    (tags : TagMap) (msg : GoString) (r : PrivMsgTags × Option NumError)
    (h : PrivMsgTags.newFromTags uuidParse pmt tags msg = .ok r) :
    ∃ u, UserStateTags.newFromTags {} tags msg = .ok u ∧ r.1.UserStateTags = some u.1 := by
  unfold PrivMsgTags.newFromTags at h
  obtain ⟨u, hu, h⟩ := except_bind_ok _ _ _ h
  obtain ⟨ems, -, h⟩ := except_bind_ok _ _ _ h
  cases h
  exact ⟨u, hu, rfl⟩

/-! ## Lemmas: the order of the writes -/

theorem onEvent_line (u : UnicodeTrim) (c : Conn) (line : GoString) (h : decodes u line) :
    ∃ r, c.onEvent u ⟨line, false⟩ = .ok r ∧ r.2.rw = c.rw ∧
      r.2.writer = c.writer ++
        (if HasPrefix (TrimSpace u line) "PING".toList then [Pong.String {}] else []) := by
  by_cases hp : HasPrefix (TrimSpace u line) "PING".toList = true
  · refine ⟨_, by simp only [Conn.onEvent, hp, if_true, Bool.false_eq_true, if_false]; rfl,
      ?_, ?_⟩
    · simp only [Conn.Send]
      split <;> rfl
    · simp only [Conn.Send, hp, if_true]
      split <;> rfl
  · rcases h with h | ⟨e, he⟩
    · exact absurd h hp
    · have hp2 : HasPrefix (TrimSpace u line) "PING".toList = false := by simpa using hp
      refine ⟨_, by simp only [Conn.onEvent, hp2, Bool.false_eq_true, if_false, he, bind,
        Except.bind]; rfl, ?_, ?_⟩
      · simp only [Conn.publish]
        split <;> split <;> rfl
      · simp only [Conn.publish, if_false, Bool.false_eq_true, List.append_nil]
        split <;> split <;> simp

theorem act_step (u : UnicodeTrim) (sock : Socket) (c : Conn)
    (wire : List (Socket × GoString)) (a : TaskAction) (hrw : c.rw = some sock)
    (hsafe : ∀ line, a = .control line → decodes u line) :
    ∃ s, Conn.act u (c, wire) a = .ok s ∧ s.1.rw = some sock ∧
      s.2 ++ s.1.writer.map (wireLine sock) =
        wire ++ (c.writer ++ queuedBy u [a]).map (wireLine sock) := by
  cases a with
  | send line =>
    exact ⟨_, rfl, hrw, by simp [Conn.Send, queuedBy]⟩
  | write =>
    refine ⟨_, rfl, ?_, ?_⟩
    · simp only [Conn.writerStep]
      split
      · exact hrw
      · split <;> exact hrw
    · simp only [Conn.writerStep, hrw, queuedBy, List.append_nil]
      split
      · rename_i h; simp [h]
      · rename_i msg rest h; simp [h, wireLine]
  | control line =>
    obtain ⟨r, hr, h1, h2⟩ := onEvent_line u c line (hsafe line rfl)
    refine ⟨(r.2, wire), by simp only [Conn.act, hr, bind, Except.bind], h1.trans hrw, ?_⟩
    simp only [h2, queuedBy]

theorem queuedBy_cons (u : UnicodeTrim) (a : TaskAction) (rest : List TaskAction) :
    queuedBy u (a :: rest) = queuedBy u [a] ++ queuedBy u rest := by
  cases a with
  | send line => rfl
  | write => rfl
  | control line =>
    simp only [queuedBy]
    split <;> rfl

theorem schedule_order (u : UnicodeTrim) (sock : Socket) :
    ∀ (sched : List TaskAction) (c : Conn) (wire : List (Socket × GoString)),
      c.rw = some sock → (∀ line, .control line ∈ sched → decodes u line) →
      ∃ s, Conn.schedule u (c, wire) sched = .ok s ∧ s.1.rw = some sock ∧
        s.2 ++ s.1.writer.map (wireLine sock) =
          wire ++ (c.writer ++ queuedBy u sched).map (wireLine sock)
  | [], c, wire, hrw, _ => ⟨_, rfl, hrw, by simp [queuedBy]⟩
  | a :: rest, c, wire, hrw, hsafe => by
    obtain ⟨s1, h1, hr1, hi1⟩ := act_step u sock c wire a hrw
      (fun line hl => hsafe line (by rw [hl]; exact List.mem_cons_self _ _))
    obtain ⟨s, h2, hr2, hi2⟩ := schedule_order u sock rest s1.1 s1.2 hr1
      (fun line hl => hsafe line (List.mem_cons_of_mem _ hl))
    refine ⟨s, by simp only [Conn.schedule, h1, bind, Except.bind]; exact h2, hr2, ?_⟩
    rw [hi2, queuedBy_cons u a rest, List.map_append, ← List.append_assoc, hi1]
    simp [List.map_append, List.append_assoc]

theorem sentBy_sublist (u : UnicodeTrim) :
    ∀ sched : List TaskAction, List.Sublist (sentBy sched) (queuedBy u sched)
  | [] => List.Sublist.slnil
  | .send line :: rest => List.Sublist.cons₂ _ (sentBy_sublist u rest)
  | .write :: rest => sentBy_sublist u rest
  | .control line :: rest => by
    simp only [sentBy, queuedBy]
    split
    · exact List.Sublist.cons _ (sentBy_sublist u rest)
    · exact sentBy_sublist u rest

theorem schedule_drain (u : UnicodeTrim) (sock : Socket) :
    ∀ (n : Nat) (c : Conn) (wire : List (Socket × GoString)),
      c.rw = some sock → c.writer.length = n →
      ∃ s, Conn.schedule u (c, wire) (List.replicate n .write) = .ok s ∧
        s.1.writer = [] ∧ s.2 = wire ++ c.writer.map (wireLine sock)
  | 0, c, wire, _, hl => by
    have : c.writer = [] := List.length_eq_zero.1 hl
    exact ⟨(c, wire), rfl, this, by simp [this]⟩
  | n + 1, c, wire, hrw, hl => by
    obtain ⟨msg, rest, hw⟩ : ∃ msg rest, c.writer = msg :: rest := by
      cases hc : c.writer with
      | nil => rw [hc] at hl; cases hl
      | cons msg rest => exact ⟨msg, rest, rfl⟩
    have hstep : Conn.writerStep c wire =
        ({ c with writer := rest }, wire ++ [wireLine sock msg]) := by
      simp only [Conn.writerStep, hw, hrw]
      rfl
    obtain ⟨s, h1, h2, h3⟩ := schedule_drain u sock n { c with writer := rest }
      (wire ++ [wireLine sock msg]) hrw (by rw [hw] at hl; simpa using hl)
    refine ⟨s, ?_, h2, ?_⟩
    · simp only [List.replicate, Conn.schedule, Conn.act, hstep, bind, Except.bind]
      exact h1
    · rw [h3, hw]
      simp

/-! ## Theorems -/

/-- C1, at the failing input: the round-trip line of the test (nickname
`alpinesoftware`, channel `blendedsoftware`, body `hello world`) decodes as the
test expects, but with the channel `blended1` the decoded event has channel
`blended` and an empty body: the channel class of the pattern is `[A-z]+`, and
the body group cannot start at the digit. -/
theorem C1_digit_channel_loses_body :
    roundTripLine "alpinesoftware".toList "blendedsoftware".toList "hello world".toList
        = privmsgLine ∧
      parse privmsgLine =
        .ok { Action := PrivMsg, Raw := privmsgLine, Tags := [],
              Message := "hello world".toList, Channel := "blendedsoftware".toList,
              Nick := "alpinesoftware".toList, User := "alpinesoftware".toList,
              Host := "tmi.twitch.tv".toList } ∧
      parse (roundTripLine "alpinesoftware".toList "blended1".toList "hello world".toList) =
        .ok { Action := PrivMsg,
              Raw := roundTripLine "alpinesoftware".toList "blended1".toList
                "hello world".toList,
              Tags := [], Message := [], Channel := "blended".toList,
              Nick := "alpinesoftware".toList, User := "alpinesoftware".toList,
              Host := "tmi.twitch.tv".toList } := by
  decide

/-- C2, at the failing input: the eight tags of the test line `privmsg_tags`
are decoded as the test expects, but the tag `reply-parent-msg-body=1+1=2` is
stored with the value `1+1`, the part of the value before its own `=`. -/
theorem C2_value_cut_at_equals :
    (parse privmsgTagsLine).map (·.Tags) =
        .ok [("badge-info".toList, []), ("badges".toList, []), ("color".toList, []),
             ("display-name".toList, "nerdwaller_bot".toList),
             ("emote-sets".toList, "0".toList), ("mod".toList, "0".toList),
             ("subscriber".toList, "0".toList), ("user-type".toList, [])] ∧
      equalsValueLine =
        '@' :: (tagPrefix [("reply-parent-msg-body".toList, "1+1=2".toList)] ++ ' ' ::
          ":alpinesoftware!alpinesoftware@alpinesoftware.tmi.twitch.tv PRIVMSG #blendedsoftware :yes".toList) ∧
      (parse equalsValueLine).map (·.Tags) =
        .ok [("reply-parent-msg-body".toList, "1+1".toList)] := by
  decide

/-- C3: the line of the test case `privmsg_tags` decodes to a PRIVMSG event
with channel `blendedsoftware`, nick and user `alpinesoftware`, body
`hello world` and the tag `display-name` mapped to `nerdwaller_bot`; reifying
its tags gives a `PrivMsgTags` with display name `nerdwaller_bot`, zero bits and
no emotes. -/
theorem C3_privmsg_tags_end_to_end (uuidParse : GoString → UUID) :
    ∃ e r, parse privmsgTagsLine = .ok e ∧
      e.Action = PrivMsg ∧ e.Channel = "blendedsoftware".toList ∧
      e.Nick = "alpinesoftware".toList ∧ e.User = "alpinesoftware".toList ∧
      e.Message = "hello world".toList ∧
      e.Tags.lookup "display-name".toList = some "nerdwaller_bot".toList ∧
      e.ReifyTags uuidParse = .ok (some (.privMsg r)) ∧
      r.DisplayName = some "nerdwaller_bot".toList ∧ r.Bits = 0 ∧ r.Emotes = [] :=
  ⟨_, _, rfl, rfl, rfl, rfl, rfl, rfl, rfl, rfl, rfl, rfl, rfl⟩

/-- C4, at the failing input: on the line `@a=b`, a tag prefix with no space
after it, `parse` panics with an index out of range at `parts[1]` and returns
no event. -/
theorem C4_parse_panics_on_bare_tag_prefix :
    parse "@a=b".toList = .error .indexOutOfRange := by
  decide

/-- C5, at failing inputs: reifying a PRIVMSG event panics when the `emotes`
tag has a group without `-` after the colon, when its range does not lie in the
body, and when the `badges` tag has an entry without `/`. -/
theorem C5_privmsg_reify_panics (uuidParse : GoString → UUID) :
    Event.ReifyTags uuidParse
        { Action := PrivMsg, Tags := [("emotes".toList, "25:abc".toList)],
          Message := "hello".toList } = .error .indexOutOfRange ∧
      Event.ReifyTags uuidParse
        { Action := PrivMsg, Tags := [("emotes".toList, "25:0-9".toList)],
          Message := "hello".toList } = .error .sliceBoundsOutOfRange ∧
      Event.ReifyTags uuidParse
        { Action := PrivMsg, Tags := [("badges".toList, "broadcaster".toList)],
          Message := "hello".toList } = .error .indexOutOfRange :=
  ⟨rfl, rfl, rfl⟩

/-- C6: every outbound command renders to its documented line, the fixed
text followed by the arguments and nothing after them; the pong line contains
no carriage return or line feed, and `PrivateMessage{foo, bar}` renders
`PRIVMSG #foo :bar`. -/
theorem C6_encoder_lines (c m k p u : GoString) :
    (ChannelJoin.mk c).String = "JOIN #".toList ++ c ∧
      (ChannelPart.mk c).String = "PART #".toList ++ c ∧
      (PrivateMessage.mk c m).String = "PRIVMSG #".toList ++ c ++ " :".toList ++ m ∧
      (CapabilityRequest.mk k).String = "CAP REQ :twitch.tv/".toList ++ k ∧
      (Password.mk p).String = "PASS ".toList ++ p ∧
      (Username.mk u).String = "NICK ".toList ++ u ∧
      Pong.String {} = "PONG :tmi.twitch.tv".toList ∧
      '\n' ∉ Pong.String {} ∧ '\r' ∉ Pong.String {} ∧
      (PrivateMessage.mk "foo".toList "bar".toList).String = "PRIVMSG #foo :bar".toList :=
  ⟨rfl, rfl, rfl, rfl, rfl, rfl, rfl, by decide, by decide, by decide⟩

/-- C7, at the failing input: for a CLEARCHAT event whose `ban-duration` tag
is `abc`, `newFromTags` returns the syntax error of `Atoi`, and `ReifyTags`
drops it and returns a `ClearChatTags` record with a zero duration, the same
value it returns for `ban-duration=0`. -/
theorem C7_clearchat_error_dropped (uuidParse : GoString → UUID) :
    (ClearChatTags.newFromTags {} [("ban-duration".toList, "abc".toList)] []).2
        = some .ErrSyntax ∧
      Event.ReifyTags uuidParse
        { Action := ClearChat, Tags := [("ban-duration".toList, "abc".toList)] }
        = .ok (some (.clearChat { BanDuration := 0 })) ∧
      Event.ReifyTags uuidParse
        { Action := ClearChat, Tags := [("ban-duration".toList, "0".toList)] }
        = .ok (some (.clearChat { BanDuration := 0 })) :=
  ⟨rfl, rfl, rfl⟩

/-- C8: `ReifyTags` returns nil when the tag mapping is empty or the command
is not one of the six of its switch; it always completes for the three commands
whose decoders cannot panic; and whenever it completes, the result is nil
exactly in the nil case above, and otherwise the record type is the one of the
event's command, whatever the tag values and the body. -/
theorem C8_reify_dispatch (uuidParse : GoString → UUID) (e : Event) :
    ((e.Tags = [] ∨ e.Action ∉ reifiedActions) → e.ReifyTags uuidParse = .ok none) ∧
    (e.Action ∈ [ClearChat, ClearMsg, RoomState] → ∃ r, e.ReifyTags uuidParse = .ok r) ∧
    ∀ r, e.ReifyTags uuidParse = .ok r →
      (r = none ↔ (e.Tags = [] ∨ e.Action ∉ reifiedActions)) ∧
      ∀ t, r = some t → t.kind = e.Action := by
  refine ⟨ReifyTags_none uuidParse e, ReifyTags_completes uuidParse e, fun r hr => ?_⟩
  by_cases h : e.Tags = [] ∨ e.Action ∉ reifiedActions
  · have := ReifyTags_none uuidParse e h
    rw [this] at hr; cases hr
    simp [h]
  · have h2 := h
    simp only [not_or, not_not] at h2
    obtain ⟨t, rfl, hk⟩ := ReifyTags_some uuidParse e h2.1 h2.2 r hr
    refine ⟨by simp [h], fun t1 ht => ?_⟩
    cases ht; exact hk

/-- C8 at two events: a JOIN event with a tag gives nil, a ROOMSTATE event
with a tag gives a room-state record. -/
theorem C8_reify_dispatch_witness :
    (Event.ReifyTags (fun _ => UUID.zero) { Action := Join, Tags := [("a".toList, "b".toList)] } = .ok none) ∧
    ∃ t, Event.ReifyTags (fun _ => UUID.zero) { Action := RoomState, Tags := [("slow".toList, "5".toList)] } = .ok (some t) ∧ t.kind = RoomState :=
  ⟨(C8_reify_dispatch _ _).1 (Or.inr (by decide)),
   ⟨_, rfl, ((C8_reify_dispatch (fun _ => UUID.zero) { Action := RoomState, Tags := [("slow".toList, "5".toList)] }).2.2 _ rfl).2 _ rfl⟩⟩

/-- C9, amended: for a body shorter than 2^63 bytes and an `emotes` tag whose
non-empty `/`-separated groups are each either a single range `id:st-en` of
decimal strings with `st ≤ en < len(body)` and `id` below 2^63, or a group
that does not have exactly two `:`-delimited parts, the emote loop completes
with exactly one entry per non-empty group, in order: the zero `Emote` for a
group of the second kind, and identifier, start, end and the text from `st`
through `en` inclusive for a group of the first kind; that list is the `Emotes`
field whenever `newFromTags` returns. -/
theorem C9_emote_list (msg v : GoString) (hlen : msg.length < 2 ^ 63)
    (h : ∀ g ∈ Split v '/', g ≠ [] →
      (∃ id st en, IsRangeGroup msg g id st en ∧ decimalValue id < 2 ^ 63) ∨
        g.count ':' ≠ 1) :
    ∃ ems, emotesLoop msg (Split v '/') [] = .ok ems ∧
      List.Forall₂ (EmoteFor msg) ((Split v '/').filter (fun g => decide (g ≠ []))) ems ∧
      ∀ (uuidParse : GoString → UUID) (pmt : PrivMsgTags) (tags : TagMap)
        (r : PrivMsgTags × Option NumError),
        tags.at "emotes".toList = v →
        PrivMsgTags.newFromTags uuidParse pmt tags msg = .ok r → r.1.Emotes = ems := by
  obtain ⟨ems, h1, h2⟩ := emotesLoop_groups msg (EmoteFor msg) (Split v '/') []
    (fun g hg hne => newEmote_group msg g hlen (h g hg hne))
  rw [List.nil_append] at h1
  refine ⟨ems, h1, h2, ?_⟩
  intro uuidParse pmt tags r hv hr
  have := PrivMsgTags_emotes uuidParse pmt tags msg r hr
  rw [hv, h1] at this
  cases this
  rfl

/-- C9 at the body `hello Kappa` with the tag `25:6-10//x`. -/
theorem C9_emote_list_witness :
    ("hello Kappa".toList).length < 2 ^ 63 ∧
    ∃ ems, emotesLoop "hello Kappa".toList (Split "25:6-10//x".toList '/') [] = .ok ems ∧
      List.Forall₂ (EmoteFor "hello Kappa".toList)
        ((Split "25:6-10//x".toList '/').filter (fun g => decide (g ≠ []))) ems ∧
      ∀ (uuidParse : GoString → UUID) (pmt : PrivMsgTags) (tags : TagMap)
        (r : PrivMsgTags × Option NumError),
        tags.at "emotes".toList = "25:6-10//x".toList →
        PrivMsgTags.newFromTags uuidParse pmt tags "hello Kappa".toList = .ok r →
        r.1.Emotes = ems := by
  have hs : Split "25:6-10//x".toList '/' = ["25:6-10".toList, [], "x".toList] := by decide
  refine ⟨by decide, C9_emote_list _ _ (by decide) ?_⟩
  intro g hg hne
  rw [hs] at hg
  simp only [List.mem_cons, List.mem_singleton, List.mem_nil_iff, or_false] at hg
  rcases hg with rfl | rfl | rfl
  · exact Or.inl ⟨"25".toList, "6".toList, "10".toList, by decide, by decide⟩
  · exact absurd rfl hne
  · exact Or.inr (by decide)

/-- C9 as stated fails at the body `a` with the tag
`9223372036854775808:0-0`: the group is a single range of decimal strings with
`0 ≤ 0 < 1`, the loop completes, and the identifier of its entry is
9223372036854775807, the largest `int`, not the identifier of the group. -/
theorem C9_big_id_counterexample :
    (∀ g ∈ Split "9223372036854775808:0-0".toList '/', g ≠ [] →
      (∃ id st en, IsRangeGroup "a".toList g id st en) ∨ g.count ':' ≠ 1) ∧
    (∃ em, emotesLoop "a".toList (Split "9223372036854775808:0-0".toList '/') [] = .ok [em] ∧
      em.ID = 9223372036854775807) ∧
    ¬ ∃ ems, emotesLoop "a".toList (Split "9223372036854775808:0-0".toList '/') [] = .ok ems ∧
      List.Forall₂ (EmoteFor "a".toList)
        ((Split "9223372036854775808:0-0".toList '/').filter (fun g => decide (g ≠ []))) ems := by
  have hs : Split "9223372036854775808:0-0".toList '/' = ["9223372036854775808:0-0".toList] := by
    decide
  have hg : IsRangeGroup "a".toList "9223372036854775808:0-0".toList
      "9223372036854775808".toList "0".toList "0".toList := by decide
  refine ⟨?_, ⟨_, rfl, rfl⟩, ?_⟩
  · intro g hm _
    rw [hs] at hm
    simp only [List.mem_singleton] at hm
    subst hm
    exact Or.inl ⟨_, _, _, hg⟩
  · rintro ⟨ems, h1, h2⟩
    have he : emotesLoop "a".toList (Split "9223372036854775808:0-0".toList '/') [] =
        .ok [{ ID := 9223372036854775807, StartIdx := 0, EndIdx := 0, Text := "a".toList,
               raw := "9223372036854775808:0-0".toList }] := by decide
    rw [he] at h1
    cases h1
    rw [hs] at h2
    simp only [ne_eq, decide_not, List.filter_cons, List.filter_nil] at h2
    have h3 : EmoteFor "a".toList "9223372036854775808:0-0".toList
        { ID := 9223372036854775807, StartIdx := 0, EndIdx := 0, Text := "a".toList,
          raw := "9223372036854775808:0-0".toList } := by
      simpa using h2
    have := (h3.2 _ _ _ hg).1
    revert this
    decide

/-- C10, at the failing input: with the body `Hello Kappa Kappa` and the
`emotes` tag `25:6-10,12-16`, a group with two ranges that both lie in the
body, reifying the PRIVMSG event panics with slice bounds out of range. -/
theorem C10_two_ranges_panic (uuidParse : GoString → UUID) :
    Event.ReifyTags uuidParse
        { Action := PrivMsg, Tags := [("emotes".toList, "25:6-10,12-16".toList)],
          Message := "Hello Kappa Kappa".toList } = .error .sliceBoundsOutOfRange :=
  rfl

/-- C11, amended: for a badge list `n1/v1,...,nk/vk` with at least one entry,
pairwise distinct names without `,` and without `/`, and versions that are
decimal integers in the range of `int`, `parseCsvSlash` completes, the decoded
mapping has exactly the names as keys and maps every name to its numeric
version; it is the `Badges` (or `BadgeInfo`) field whenever
`GlobalUserStateTags.newFromTags` returns for tags whose `badges` (or
`badge-info`) value is that list. -/
theorem C11_badge_entries (es : List (GoString × GoString)) (hne : es ≠ [])
    (h : ∀ p ∈ es, IsBadgeEntry p) (hd : (es.map Prod.fst).Nodup) :
    ∃ m, parseCsvSlash (badgeList es) [] = .ok m ∧
      GoMap.keys m = es.map Prod.fst ∧
      (∀ p ∈ es, GoMap.lookup m p.1 = some (decimalIntValue p.2)) ∧
      ∀ (g : GlobalUserStateTags) (tags : TagMap) (msg : GoString)
        (r : GlobalUserStateTags × Option NumError),
        GlobalUserStateTags.newFromTags g tags msg = .ok r →
        (tags.at "badges".toList = badgeList es → r.1.Badges = m) ∧
          (tags.at "badge-info".toList = badgeList es → r.1.BadgeInfo = m) := by
  have hp := parseCsvSlash_badgeList es hne h hd
  refine ⟨_, hp, ?_, ?_, ?_⟩
  · simp [GoMap.keys, List.map_map, Function.comp_def]
  · intro p hpm
    apply lookup_of_mem_nodup
    · simpa [List.map_map, Function.comp_def] using hd
    · exact List.mem_map.2 ⟨p, hpm, rfl⟩
  · intro g tags msg r hr
    obtain ⟨h1, h2⟩ := GlobalUserStateTags_badges g tags msg r hr
    constructor
    · intro hv
      rw [hv, hp] at h2
      exact (Except.ok.inj h2).symm
    · intro hv
      rw [hv, hp] at h1
      exact (Except.ok.inj h1).symm

/-- C11 at the badge list `subscriber/12,bits/1000`. -/
theorem C11_badge_entries_witness :
    ∃ m, parseCsvSlash (badgeList [("subscriber".toList, "12".toList),
          ("bits".toList, "1000".toList)]) [] = .ok m ∧
      GoMap.keys m = ["subscriber".toList, "bits".toList] ∧
      GoMap.lookup m "bits".toList = some 1000 := by
  obtain ⟨m, h1, h2, h3, -⟩ := C11_badge_entries
    [("subscriber".toList, "12".toList), ("bits".toList, "1000".toList)]
    (by decide)
    (by
      intro p hp
      simp only [List.mem_cons, List.mem_singleton, List.mem_nil_iff, or_false] at hp
      rcases hp with rfl | rfl
      · exact ⟨by decide, by decide, Or.inl (by decide), by decide, by decide⟩
      · exact ⟨by decide, by decide, Or.inl (by decide), by decide, by decide⟩)
    (by decide)
  exact ⟨m, h1, h2, h3 ("bits".toList, "1000".toList) (by simp)⟩

/-- C11 as stated fails at the value `founder/sub/3`, the entry with the name
`founder/sub` and the version 3: the decoded mapping is `founder ↦ 0`, the
entry being cut at its first `/`, so the name is not a key.  It also fails at
`subscriber/9223372036854775808`, whose version is stored as the largest
`int`. -/
theorem C11_last_slash_counterexample :
    badgeList [("founder/sub".toList, "3".toList)] = "founder/sub/3".toList ∧
      parseCsvSlash "founder/sub/3".toList [] = .ok [("founder".toList, 0)] ∧
      (¬ ∃ m, parseCsvSlash "founder/sub/3".toList [] = .ok m ∧
        GoMap.lookup m "founder/sub".toList = some 3) ∧
      parseCsvSlash "subscriber/9223372036854775808".toList [] =
        .ok [("subscriber".toList, 9223372036854775807)] := by
  refine ⟨by decide, by decide, ?_, by decide⟩
  rintro ⟨m, h1, h2⟩
  have h : parseCsvSlash "founder/sub/3".toList [] = .ok [("founder".toList, 0)] := by decide
  rw [h] at h1
  cases h1
  revert h2
  decide

/-- C12, at the failing input: on the badge list `subscriber/12,broadcaster`,
whose second entry has no `/`, `parseCsvSlash` panics with an index out of
range at `parts[1]`, and so does reifying a GLOBALUSERSTATE or USERSTATE event
that carries it: no mapping is returned, the well-formed entry included. -/
theorem C12_entry_without_slash_panics (uuidParse : GoString → UUID) :
    parseCsvSlash "subscriber/12,broadcaster".toList [] = .error .indexOutOfRange ∧
      parseCsvSlash "broadcaster".toList [] = .error .indexOutOfRange ∧
      Event.ReifyTags uuidParse
        { Action := GlobalUserState,
          Tags := [("badges".toList, "subscriber/12,broadcaster".toList)] }
        = .error .indexOutOfRange ∧
      Event.ReifyTags uuidParse
        { Action := UserState,
          Tags := [("badge-info".toList, "subscriber/12,broadcaster".toList)] }
        = .error .indexOutOfRange :=
  ⟨rfl, rfl, rfl, rfl⟩

/-- C13: for a backoff whose initial delay is `D` milliseconds and whose
maximum is `M` milliseconds, with `D ≤ M` and a factor `F ≥ 1`, and whatever
its current delay, after `reset()` and `k` calls of `wait()` the current delay
is `min (D * F ^ k) M` milliseconds, provided the products of those `k` calls
stay in the 64-bit range. -/
theorem C13_backoff_closed_form (b : backoff) (D M : Int) (k : Nat)
    (hdef : b.def_ = D * Millisecond) (hmax : b.max = M * Millisecond)
    (hF : 1 ≤ b.factor) (hDM : D ≤ M)
    (hov : ∀ j < k, -2 ^ 63 ≤ min (D * b.factor ^ j) M * b.factor * 1000000 ∧
      min (D * b.factor ^ j) M * b.factor * 1000000 < 2 ^ 63) :
    (backoff.waits k b.reset).current = min (D * b.factor ^ k) M * Millisecond := by
  induction k with
  | zero =>
    simp [backoff.waits, backoff.reset, hdef, min_eq_left hDM]
  | succ n ih =>
    have ih2 := ih (fun j hj => hov j (Nat.lt_succ_of_lt hj))
    obtain ⟨-, f2, f3⟩ := waits_fields n b.reset
    have hf : (backoff.waits n b.reset).factor = b.factor := f3
    have hm : (backoff.waits n b.reset).max = M * Millisecond := by rw [f2]; exact hmax
    have hw := wait_whole (backoff.waits n b.reset) _ M ih2 hm (by rw [hf]; exact hov n (Nat.lt_succ_self n))
    simp only [backoff.waits, hw, hf]
    have hP : 1 ≤ b.factor ^ n := one_le_pow₀ hF
    rw [min_step D M b.factor (b.factor ^ n) hF hP hDM, pow_succ, mul_assoc]

/-- C13 at the backoff of `Run` (1 s, 30 s, factor 2): six waits after a reset
give `min (1000 * 2 ^ 6) 30000` ms, and one wait after the next reset gives
`min (1000 * 2) 30000` ms. -/
theorem C13_backoff_closed_form_witness :
    (backoff.waits 6 backer.reset).current
        = min (1000 * backer.factor ^ 6) 30000 * Millisecond ∧
      (backoff.waits 1 (backoff.waits 6 backer.reset).reset).current
        = min (1000 * backer.factor ^ 1) 30000 * Millisecond := by
  have h6 : ∀ j < 6, -2 ^ 63 ≤ min (1000 * backer.factor ^ j) 30000 * backer.factor * 1000000 ∧
      min (1000 * backer.factor ^ j) 30000 * backer.factor * 1000000 < 2 ^ 63 := by
    intro j hj
    interval_cases j <;> decide
  have h1 : ∀ j < 1, -2 ^ 63 ≤ min (1000 * backer.factor ^ j) 30000 * backer.factor * 1000000 ∧
      min (1000 * backer.factor ^ j) 30000 * backer.factor * 1000000 < 2 ^ 63 := by
    intro j hj
    interval_cases j
    decide
  exact ⟨C13_backoff_closed_form backer 1000 30000 6 rfl rfl (by decide) (by decide) h6,
    C13_backoff_closed_form (backoff.waits 6 backer.reset) 1000 30000 1 rfl rfl
      (by decide) (by decide) h1⟩

/-- C14, at the failing input: in the backoff as `Run` constructs it the
current delay is 0, below the initial delay of one second; it is still 0 after
any number of `wait()` calls, and after the failed first dial of `Run`. -/
theorem C14_backer_starts_at_zero (u : UnicodeTrim) (c : Conn) :
    backer.current = 0 ∧ ¬ (backer.def_ ≤ backer.current) ∧
      (∀ k, (backoff.waits k backer).current = 0) ∧
      (Conn.RunStep u (Conn.RunStart c) .dialErr).map (·.backer.current) = .ok 0 :=
  ⟨rfl, by decide, waits_backer_zero, rfl⟩

/-- C15, amended: on the welcome line the body of the control loop completes,
the logged-in flag is true afterwards, and the event decoded from the line is
appended to the event queue when the queue holds fewer than 100 events; the
queue is left unchanged only when it is full. -/
theorem C15_welcome_line_published (u : UnicodeTrim) (c : Conn) (b : backoff) :
    c.onEvent u ⟨welcomeLine, false⟩ =
        .ok (.loop, Conn.publish { c with loggedIn := true } welcomeEvent) ∧
      Conn.RunStep u ⟨c, b, .serving⟩ (.recv ⟨welcomeLine, false⟩) =
        .ok ⟨Conn.publish { c with loggedIn := true } welcomeEvent, b, .serving⟩ ∧
      (Conn.publish { c with loggedIn := true } welcomeEvent).loggedIn = true ∧
      (Conn.publish { c with loggedIn := true } welcomeEvent).events =
        if c.events.length < 100 then c.events ++ [welcomeEvent] else c.events := by
  have h := onEvent_welcome u c
  refine ⟨h, ?_, ?_, ?_⟩
  · simp only [Conn.RunStep, h, bind, Except.bind]
  · unfold Conn.publish
    split <;> rfl
  · unfold Conn.publish
    split <;> rfl

/-- C15 as stated fails on an established connection with an empty event
queue: the step on the welcome line does not end with the flag set and the
queue still empty. -/
theorem C15_welcome_line_counterexample :
    ¬ ∃ c1, Conn.RunStep asciiTrim
          ⟨{ username := "nerdwaller_bot".toList, rw := some 1 }, backer.reset, .serving⟩
          (.recv ⟨welcomeLine, false⟩)
        = .ok ⟨c1, backer.reset, .serving⟩ ∧
        c1.loggedIn = true ∧ c1.events = [] := by
  rintro ⟨c1, h1, -, h3⟩
  have h : Conn.RunStep asciiTrim
      ⟨{ username := "nerdwaller_bot".toList, rw := some 1 }, backer.reset, .serving⟩
      (.recv ⟨welcomeLine, false⟩)
      = .ok ⟨{ username := "nerdwaller_bot".toList, rw := some 1, loggedIn := true,
               events := [welcomeEvent] }, backer.reset, .serving⟩ := by
    decide
  rw [h] at h1
  injection h1 with h1
  injection h1 with h1
  subst h1
  revert h3
  decide

/-- C16: when the line received without read error begins with `PING` after
`TrimSpace`, the body of the control loop completes, appends exactly the line
`PONG :tmi.twitch.tv` to the outbound queue and leaves the event queue as it
is; when the trimmed line does not begin with `PING`, the outbound queue is
unchanged whenever the body completes. -/
theorem C16_keepalive (u : UnicodeTrim) (c : Conn) (line : GoString) :
    (HasPrefix (TrimSpace u line) "PING".toList = true →
      ∃ c1, c.onEvent u ⟨line, false⟩ = .ok (.loop, c1) ∧
        c1.writer = c.writer ++ ["PONG :tmi.twitch.tv".toList] ∧ c1.events = c.events) ∧
    (HasPrefix (TrimSpace u line) "PING".toList = false →
      ∀ r, c.onEvent u ⟨line, false⟩ = .ok r → r.2.writer = c.writer) := by
  constructor
  · intro h
    refine ⟨_, by simp only [Conn.onEvent, h, if_true, Bool.false_eq_true, if_false]; rfl, ?_, ?_⟩
    · simp only [Conn.Send, Pong.String]
      split <;> rfl
    · simp only [Conn.Send]
      split <;> rfl
  · intro h r hr
    simp only [Conn.onEvent, h, Bool.false_eq_true, if_false] at hr
    obtain ⟨e, -, he⟩ := except_bind_ok _ _ _ hr
    cases he
    simp only [Conn.publish]
    split <;> split <;> rfl

/-- C16 at the lines `PING :tmi.twitch.tv` and `:tmi.twitch.tv PINGED`, each
with its line terminator. -/
theorem C16_keepalive_witness :
    (∃ c1, Conn.onEvent asciiTrim { writer := ["JOIN #foo".toList] }
          ⟨"PING :tmi.twitch.tv\r\n".toList, false⟩ = .ok (.loop, c1) ∧
        c1.writer = ["JOIN #foo".toList] ++ ["PONG :tmi.twitch.tv".toList] ∧ c1.events = []) ∧
      ∀ r, Conn.onEvent asciiTrim { writer := ["JOIN #foo".toList] }
          ⟨":tmi.twitch.tv PINGED\r\n".toList, false⟩ = .ok r →
        r.2.writer = ["JOIN #foo".toList] :=
  ⟨(C16_keepalive asciiTrim { writer := ["JOIN #foo".toList] }
      "PING :tmi.twitch.tv\r\n".toList).1 (by decide),
   (C16_keepalive asciiTrim { writer := ["JOIN #foo".toList] }
      ":tmi.twitch.tv PINGED\r\n".toList).2 (by decide)⟩

/-- C17: the step of `Run` on a successful dial appends to the outbound queue
exactly the three capability requests, then `PASS` with the password, then
`NICK` with the username, in this order, and enters the loop; no inbound line
is read on the way. -/
theorem C17_handshake_order (u : UnicodeTrim) (c : Conn) (b : backoff) (conn : Socket) :
    Conn.RunStep u ⟨c, b, .dialing⟩ (.dialOk conn) =
        .ok ⟨c.connected conn, b.reset, .serving⟩ ∧
      (c.connected conn).writer = c.writer ++
        [ "CAP REQ :twitch.tv/membership".toList, "CAP REQ :twitch.tv/tags".toList,
          "CAP REQ :twitch.tv/commands".toList, "PASS ".toList ++ c.password,
          "NICK ".toList ++ c.username ] ∧
      (c.connected conn).events = c.events ∧ (c.connected conn).rw = some conn := by
  refine ⟨rfl, ?_, rfl, rfl⟩
  simp [Conn.connected, Conn.Send, CapabilityRequest.String, Password.String, Username.String,
    MembershipCapability, TagCapability, CommandCapability]

/-- C18, at the failing input: a read error on a connection with the socket
`sock` takes `Run` back to the dial with the socket handle still `sock`, a
failed dial leaves it there, and the write loop then writes the next message
of the outbound queue to `sock` instead of dropping it; a message is dropped
only while the handle is nil, which no step of `Run` makes it again. -/
theorem C18_old_socket_kept (u : UnicodeTrim) (c : Conn) (b : backoff) (sock : Socket)
    (line msg : GoString) (rest : List GoString) (wire : List (Socket × GoString)) :
    Conn.RunStep u ⟨{ c with rw := some sock }, b, .serving⟩ (.recv ⟨line, true⟩) =
        .ok ⟨{ c with rw := some sock, loggedIn := false }, b, .dialing⟩ ∧
      Conn.RunStep u ⟨{ c with rw := some sock, loggedIn := false }, b, .dialing⟩ .dialErr =
        .ok ⟨{ c with rw := some sock, loggedIn := false }, b.wait, .dialing⟩ ∧
      Conn.writerStep { c with rw := some sock, loggedIn := false, writer := msg :: rest } wire =
        ({ c with rw := some sock, loggedIn := false, writer := rest },
          wire ++ [(sock, msg ++ "\r\n".toList)]) ∧
      Conn.writerStep { c with rw := none, writer := msg :: rest } wire =
        ({ c with rw := none, writer := rest }, wire) :=
  ⟨rfl, rfl, rfl, rfl⟩

/-- C20: for a line `@pre rest`, `pre` without space, whose prefix has an item
`k` without `=` such that `k` is the name of exactly one item of the prefix,
`parse` completes and the tag mapping of the event maps `k` to the empty
string. -/
theorem C20_bare_key (pre rest k : GoString) (hsp : ' ' ∉ pre)
    (hk : k ∈ Split pre ';') (heq : '=' ∉ k)
    (honce : ((Split pre ';').map tagName).count k = 1) :
    ∃ e, parse ('@' :: (pre ++ ' ' :: rest)) = .ok e ∧ e.Tags.lookup k = some [] := by
  obtain ⟨e, he, -, ht⟩ := parse_tagged pre rest hsp
  exact ⟨e, he, by rw [ht]; exact lookup_foldl_once k heq _ _ hk honce⟩

/-- C20 at the prefix `mod=1;turbo;color=` and the item `turbo`. -/
theorem C20_bare_key_witness :
    ∃ e, parse ('@' :: ("mod=1;turbo;color=".toList ++ ' ' :: "PING".toList)) = .ok e ∧
      e.Tags.lookup "turbo".toList = some [] :=
  C20_bare_key "mod=1;turbo;color=".toList "PING".toList "turbo".toList
    (by decide) (by decide) (by decide) (by decide)

/-- C21, amended: for every tag mapping there is one list that is the
`EmoteSets` of every global-user-state record decoded from it, and of the
record embedded in every user-state and chat-message record decoded from it.
The list has one entry per comma-separated field of the `emote-sets` value, in
the order of the fields; the entry of a field that is not a decimal integer is
0, unless the digits the field starts with already denote 2^64 or more, and
the entry of a decimal integer in the range of `int` is that integer.  The
list is never empty, and it is `[0]` when the tag is absent or empty. -/
theorem C21_emote_sets (tags : TagMap) :
    ∃ sets : List Int,
      List.Forall₂ EmoteSetFor (Split (tags.at "emote-sets".toList) ',') sets ∧
      sets.length = (tags.at "emote-sets".toList).count ',' + 1 ∧
      sets ≠ [] ∧
      (tags.lookup "emote-sets".toList = none ∨ tags.lookup "emote-sets".toList = some [] →
        sets = [0]) ∧
      (∀ (g : GlobalUserStateTags) (msg : GoString)
          (r : GlobalUserStateTags × Option NumError),
        GlobalUserStateTags.newFromTags g tags msg = .ok r → r.1.EmoteSets = sets) ∧
      (∀ (ust : UserStateTags) (msg : GoString) (r : UserStateTags × Option NumError),
        UserStateTags.newFromTags ust tags msg = .ok r →
        ∃ g, r.1.GlobalUserStateTags = some g ∧ g.EmoteSets = sets) ∧
      (∀ (uuidParse : GoString → UUID) (pmt : PrivMsgTags) (msg : GoString)
          (r : PrivMsgTags × Option NumError),
        PrivMsgTags.newFromTags uuidParse pmt tags msg = .ok r →
        ∃ u g, r.1.UserStateTags = some u ∧ u.GlobalUserStateTags = some g ∧
          g.EmoteSets = sets) := by
  have hlen : ((Split (tags.at "emote-sets".toList) ',').map (fun e => (Atoi e).1)).length
      = (tags.at "emote-sets".toList).count ',' + 1 := by
    rw [List.length_map, length_Split]
  refine ⟨(Split (tags.at "emote-sets".toList) ',').map (fun e => (Atoi e).1),
    ?_, hlen, ?_, ?_, ?_, ?_, ?_⟩
  · rw [List.forall₂_map_right_iff, List.forall₂_same]
    exact fun f _ => EmoteSetFor_Atoi f
  · intro h
    rw [h] at hlen
    simp at hlen
  · intro h
    have hat : tags.at "emote-sets".toList = [] := by
      unfold TagMap.at
      rcases h with h | h <;> rw [h] <;> rfl
    rw [hat]
    rfl
  · exact fun g msg r hr => GlobalUserStateTags_emoteSets g tags msg r hr
  · intro ust msg r hr
    obtain ⟨g, hg, he⟩ := UserStateTags_embedded ust tags msg r hr
    exact ⟨g.1, he, GlobalUserStateTags_emoteSets _ tags msg g hg⟩
  · intro uuidParse pmt msg r hr
    obtain ⟨u, hu, he⟩ := PrivMsgTags_embedded uuidParse pmt tags msg r hr
    obtain ⟨g, hg, he2⟩ := UserStateTags_embedded _ tags msg u hu
    exact ⟨u.1, g.1, he, he2, GlobalUserStateTags_emoteSets _ tags msg g hg⟩

/-- C21 at the tag value `0,abc,,-300`: decoding completes with the list
`[0, 0, 0, -300]`. -/
theorem C21_emote_sets_witness :
    ∃ sets : List Int,
      List.Forall₂ EmoteSetFor ["0".toList, "abc".toList, [], "-300".toList] sets ∧
      (GlobalUserStateTags.newFromTags {} [("emote-sets".toList, "0,abc,,-300".toList)] []).map
          (·.1.EmoteSets) = .ok sets ∧
      sets = [0, 0, 0, -300] := by
  obtain ⟨sets, h1, -, -, -, h5, -, -⟩ :=
    C21_emote_sets [("emote-sets".toList, "0,abc,,-300".toList)]
  have hs : Split (TagMap.at [("emote-sets".toList, "0,abc,,-300".toList)] "emote-sets".toList) ','
      = ["0".toList, "abc".toList, [], "-300".toList] := by decide
  rw [hs] at h1
  have hr : GlobalUserStateTags.newFromTags {} [("emote-sets".toList, "0,abc,,-300".toList)] []
      = .ok ({ EmoteSets := [0, 0, 0, -300] }, none) := by decide
  have := h5 {} [] _ hr
  exact ⟨sets, h1, by rw [hr]; exact congrArg Except.ok this, this.symm⟩

/-- C21 as stated fails at the tag value `99999999999999999999x`, one field
that is not a decimal integer: its entry is 9223372036854775807, the largest
`int`, not 0, because `strconv.Atoi` reports the overflow of the twenty digits
before it reaches the `x`. -/
theorem C21_overflow_counterexample :
    Split "99999999999999999999x".toList ',' = ["99999999999999999999x".toList] ∧
      ¬ IsSignedDecimal "99999999999999999999x".toList ∧
      (GlobalUserStateTags.newFromTags {}
          [("emote-sets".toList, "99999999999999999999x".toList)] []).map (·.1.EmoteSets)
        = .ok [9223372036854775807] ∧
      ¬ List.Forall₂ (fun f v => ¬ IsSignedDecimal f → v = (0 : Int))
          (Split "99999999999999999999x".toList ',') [9223372036854775807] := by
  refine ⟨by decide, by decide, by decide, ?_⟩
  intro h
  have hs : Split "99999999999999999999x".toList ',' = ["99999999999999999999x".toList] := by
    decide
  rw [hs] at h
  have h1 : ¬ IsSignedDecimal "99999999999999999999x".toList →
      (9223372036854775807 : Int) = 0 := by
    simpa using h
  exact absurd (h1 (by decide)) (by decide)

end Irc
